import Mathlib

/-!
Verification development for the Farol-vigia collector.

This file gives a shallow embedding, in Lean 4, of the core of the
repository: the pagination planner (`PaginatedHttpFetcher._build_requests`),
the SHA-256 deduper (`Sha256Deduper`), the document/selector engine
(`html_tree.py`), the text sanitizer (`SoupTextCleaner`), the listing
extractor (`SoupListingParser.extract`) and the collection orchestrator
(`CollectUseCase`).  Python machine-level notions are modelled explicitly:
ints are `Int`/`Nat`, `None` is `Option`, raised exceptions are `Except`,
Python dicts (insertion ordered, later writers override in place) are
association lists with an in-place update, and the object graph of the
mutable HTML tree used by the sanitizer is an explicit heap so that the
parent back-references behave exactly as in CPython (including stale
references after `unwrap`).
-/

/-- Python dict update `d[k] = v`: replaces the value in place when the key
exists (keeping its position), appends otherwise. -/
def dictInsert (k : String) (v : α) : List (String × α) → List (String × α)
  | [] => [(k, v)]
  | (k₂, v₂) :: rest => if k₂ = k then (k, v) :: rest else (k₂, v₂) :: dictInsert k v rest

/-- Python `d.get(k)` / `k in d`. -/
def dictGet (k : String) : List (String × α) → Option α
  | [] => none
  | (k₂, v₂) :: rest => if k₂ = k then some v₂ else dictGet k rest

/-- Python `d.setdefault(k, v)`. -/
def dictSetdefault (k : String) (v : α) (d : List (String × α)) : List (String × α) :=
  match dictGet k d with
  | some _ => d
  | none => d ++ [(k, v)]

/-- Python dict merge as in `{**a, **b}` / `a.update(b)`: keys of `b`
override same-key values of `a` in place, new keys are appended in order. -/
def dictMerge (a b : List (String × α)) : List (String × α) :=
  b.foldl (fun acc kv => dictInsert kv.1 kv.2 acc) a

/-- Python truthiness-based `or` on strings: `a or b`. -/
def pyOrS (a b : String) : String := if a = "" then b else a

/-- Python slice `l[:n]`, which clamps negative `n` against the length. -/
def pySliceTo (n : Int) (l : List α) : List α :=
  if 0 ≤ n then l.take n.toNat else l.take ((l.length : Int) + n).toNat

/-- Length of Python `range(a, b, t)` for a positive step `t`. -/
def pyRangeCount (a b t : Int) : Nat := ((b - a + t - 1).toNat) / t.toNat

/-- Python `list(range(a, b, s))` for `s ≠ 0` (empty when `s = 0`, a case the
planner never produces because it normalizes a zero step to 1). -/
def pyRange (a b s : Int) : List Int :=
  if 0 < s then (List.range (pyRangeCount a b s)).map (fun k : Nat => a + s * (k : Int))
  else if s < 0 then (List.range (pyRangeCount b a (-s))).map (fun k : Nat => a + s * (k : Int))
  else []

/-- Inclusive ascending integer range from `a` to `b` with step `k + 1`
(the step is passed as a `Nat` so that it is positive by construction). -/
def inclRangeUp (a b : Int) (k : Nat) : List Int :=
  if _h : a ≤ b then a :: inclRangeUp (a + (k + 1 : Int)) b k else []
termination_by (b + 1 - a).toNat
decreasing_by omega

/-- Inclusive descending integer range from `a` down to `b` with step
`-(k + 1)`. -/
def inclRangeDown (a b : Int) (k : Nat) : List Int :=
  if _h : b ≤ a then a :: inclRangeDown (a - (k + 1 : Int)) b k else []
termination_by (a + 1 - b).toNat
decreasing_by omega

/-- The inclusive integer range from `a` to `b` stepping by `s`, as the
spec words it: empty when the range direction does not match the sign of
`s` (and for the impossible `s = 0`). -/
def inclRange (a b s : Int) : List Int :=
  if 0 < s then inclRangeUp a b (s - 1).toNat
  else if s < 0 then inclRangeDown a b (-s - 1).toNat
  else []

/-- Value of a query-string parameter. -/
inductive ParamV where
  | int (n : Int)
  | str (s : String)
deriving DecidableEq

/-- Pagination configuration mapping, as read by `_build_requests` from the
portal configuration (`param`, `start`, `stop`, `step`, `params`, `pages`,
`count`, `limit`); absent keys are `none`.  Numeric values are modelled
already coerced to `Int` (the source applies `int(...)`). -/
structure PaginationCfg where
  param : Option String := none
  start : Option Int := none
  stop : Option Int := none
  step : Option Int := none
  params : List (String × ParamV) := []
  pages : Option (List Int) := none
  count : Option Int := none
  limit : Option Int := none
deriving DecidableEq

/-- One planned page request: the listing URL, the query parameters
(`none` models Python `params=None` for the no-pagination request) and the
per-page metadata mapping (`page` value, empty for the no-pagination
request). -/
structure PageRequest where
  url : String
  params : Option (List (String × ParamV))
  meta : List (String × Int)
deriving DecidableEq

/-- Embedding of `PaginatedHttpFetcher._build_requests`.  A `none`
configuration models Python falsiness of the `pagination` argument (both
`None` and an empty mapping). -/
def buildRequests (url : String) (pagination : Option PaginationCfg) : List PageRequest :=
  match pagination with
  | none => [⟨url, none, []⟩]
  | some cfg =>
    let param := cfg.param.getD "page"
    let start := cfg.start.getD 1
    let step0 := cfg.step.getD 1
    let step := if step0 = 0 then 1 else step0
    let pages : List Int :=
      match cfg.pages with
      | some explicit => explicit
      | none =>
        match cfg.stop with
        | some stopv => pyRange start (stopv + (if 0 < step then 1 else -1)) step
        | none => (List.range (max (cfg.count.getD 1) 1).toNat).map
            (fun i : Nat => start + step * (i : Int))
    let pages2 : List Int :=
      match cfg.limit with
      | some lim => pySliceTo lim pages
      | none => pages
    pages2.map (fun page => ⟨url, some (dictInsert param (.int page) cfg.params), [("page", page)]⟩)

/-- The planner behaviour as the specification words it: the explicit
`pages` list verbatim when given; else the inclusive range from `start` to
`stop` by `step` when `stop` is given; else `count` (default 1, minimum 1)
values from `start` stepping by `step`; the sequence truncated to `limit`
entries when `limit` is set; and exactly one request with no extra
parameters when no pagination configuration is supplied. -/
def plannerSpec (url : String) (pagination : Option PaginationCfg) : List PageRequest :=
  match pagination with
  | none => [⟨url, none, []⟩]
  | some cfg =>
    let param := cfg.param.getD "page"
    let start := cfg.start.getD 1
    let step0 := cfg.step.getD 1
    let step := if step0 = 0 then 1 else step0
    let pages : List Int :=
      match cfg.pages with
      | some explicit => explicit
      | none =>
        match cfg.stop with
        | some stopv => inclRange start stopv step
        | none => (List.range (max (cfg.count.getD 1) 1).toNat).map
            (fun i : Nat => start + step * (i : Int))
    let pages2 : List Int :=
      match cfg.limit with
      | some lim => pages.take lim.toNat
      | none => pages
    pages2.map (fun page => ⟨url, some (dictInsert param (.int page) cfg.params), [("page", page)]⟩)

/-- The `limit` entry, when present, is non-negative (the claim's
"truncated to limit entries" only makes sense for a count). -/
def limitOk : Option PaginationCfg → Bool
  | none => true
  | some cfg =>
    match cfg.limit with
    | none => true
    | some lim => decide (0 ≤ lim)

theorem pyRangeCount_eq_zero (a b t : Int) (ht : 0 < t) (hab : b < a) :
    pyRangeCount a (b + 1) t = 0 := by
  unfold pyRangeCount
  have hx : (b + 1 - a + t - 1).toNat < t.toNat := by omega
  exact Nat.div_eq_of_lt hx

theorem pyRangeCount_succ (a b t : Int) (ht : 0 < t) (hab : a ≤ b) :
    pyRangeCount a (b + 1) t = pyRangeCount (a + t) (b + 1) t + 1 := by
  unfold pyRangeCount
  have hx : (b + 1 - a + t - 1).toNat = (b + 1 - (a + t) + t - 1).toNat + t.toNat := by omega
  rw [hx]
  have ht2 : 0 < t.toNat := by omega
  exact Nat.add_div_right _ ht2

theorem inclRangeUp_eq (n : Nat) : ∀ (a b : Int) (k : Nat),
    pyRangeCount a (b + 1) ((k : Int) + 1) = n →
    inclRangeUp a b k = (List.range n).map (fun i : Nat => a + ((k : Int) + 1) * (i : Int)) := by
  induction n with
  | zero =>
    intro a b k hc
    have hab : ¬ a ≤ b := by
      intro hab
      have := pyRangeCount_succ a b ((k : Int) + 1) (by omega) hab
      omega
    rw [inclRangeUp, dif_neg hab, List.range_zero, List.map_nil]
  | succ m ih =>
    intro a b k hc
    have hab : a ≤ b := by
      by_contra hab
      have := pyRangeCount_eq_zero a b ((k : Int) + 1) (by omega) (by omega)
      omega
    have hc2 : pyRangeCount (a + ((k : Int) + 1)) (b + 1) ((k : Int) + 1) = m := by
      have := pyRangeCount_succ a b ((k : Int) + 1) (by omega) hab
      omega
    rw [inclRangeUp, dif_pos hab, ih (a + ((k : Int) + 1)) b k hc2]
    rw [List.range_succ_eq_map, List.map_cons, List.map_map]
    congr 1
    · simp
    · apply List.map_congr_left
      intro i _
      simp only [Function.comp_apply]
      push_cast
      ring

theorem pyRangeCountDown_eq_zero (a b t : Int) (ht : 0 < t) (hab : a < b) :
    pyRangeCount (b - 1) a t = 0 := by
  unfold pyRangeCount
  have hx : (a - (b - 1) + t - 1).toNat < t.toNat := by omega
  exact Nat.div_eq_of_lt hx

theorem pyRangeCountDown_succ (a b t : Int) (ht : 0 < t) (hab : b ≤ a) :
    pyRangeCount (b - 1) a t = pyRangeCount (b - 1) (a - t) t + 1 := by
  unfold pyRangeCount
  have hx : (a - (b - 1) + t - 1).toNat = ((a - t) - (b - 1) + t - 1).toNat + t.toNat := by omega
  rw [hx]
  have ht2 : 0 < t.toNat := by omega
  exact Nat.add_div_right _ ht2

theorem inclRangeDown_eq (n : Nat) : ∀ (a b : Int) (k : Nat),
    pyRangeCount (b - 1) a ((k : Int) + 1) = n →
    inclRangeDown a b k = (List.range n).map (fun i : Nat => a - ((k : Int) + 1) * (i : Int)) := by
  induction n with
  | zero =>
    intro a b k hc
    have hab : ¬ b ≤ a := by
      intro hab
      have := pyRangeCountDown_succ a b ((k : Int) + 1) (by omega) hab
      omega
    rw [inclRangeDown, dif_neg hab, List.range_zero, List.map_nil]
  | succ m ih =>
    intro a b k hc
    have hab : b ≤ a := by
      by_contra hab
      have := pyRangeCountDown_eq_zero a b ((k : Int) + 1) (by omega) (by omega)
      omega
    have hc2 : pyRangeCount (b - 1) (a - ((k : Int) + 1)) ((k : Int) + 1) = m := by
      have := pyRangeCountDown_succ a b ((k : Int) + 1) (by omega) hab
      omega
    rw [inclRangeDown, dif_pos hab, ih (a - ((k : Int) + 1)) b k hc2]
    rw [List.range_succ_eq_map, List.map_cons, List.map_map]
    congr 1
    · simp
    · apply List.map_congr_left
      intro i _
      simp only [Function.comp_apply]
      push_cast
      ring

theorem pyRange_inclRange_up (a b s : Int) (hs : 0 < s) :
    pyRange a (b + 1) s = inclRange a b s := by
  have hk : (((s - 1).toNat : Int)) + 1 = s := by omega
  rw [inclRange, if_pos hs,
    inclRangeUp_eq (pyRangeCount a (b + 1) (((s - 1).toNat : Int) + 1)) a b (s - 1).toNat rfl,
    hk, pyRange, if_pos hs]

theorem pyRange_inclRange_down (a b s : Int) (hs : s < 0) :
    pyRange a (b - 1) s = inclRange a b s := by
  have hk : (((-s - 1).toNat : Int)) + 1 = -s := by omega
  rw [inclRange, if_neg (by omega), if_pos hs,
    inclRangeDown_eq (pyRangeCount (b - 1) a (((-s - 1).toNat : Int) + 1)) a b (-s - 1).toNat rfl,
    hk, pyRange, if_neg (by omega), if_pos hs]
  apply List.map_congr_left
  intro i _
  ring

theorem pyRange_inclRange (a b s : Int) (hs : s ≠ 0) :
    pyRange a (b + (if 0 < s then 1 else -1)) s = inclRange a b s := by
  by_cases hpos : 0 < s
  · rw [if_pos hpos]
    exact pyRange_inclRange_up a b s hpos
  · have hneg : s < 0 := by omega
    rw [if_neg hpos, show b + (-1 : Int) = b - 1 from by ring]
    exact pyRange_inclRange_down a b s hneg

/-- C5: the pagination planner produces exactly the explicit pages list
verbatim, else the inclusive start..stop range by step (empty on direction
mismatch), else count (default 1, minimum 1) values from start by step;
truncated to limit when limit is set (limit being a non-negative count);
and exactly one request with no extra parameters when no pagination
configuration is supplied. -/
theorem buildRequests_eq_plannerSpec (url : String) (p : Option PaginationCfg)
    (hlim : limitOk p = true) : buildRequests url p = plannerSpec url p := by
  cases p with
  | none => rfl
  | some cfg =>
    have hstep : (if cfg.step.getD 1 = 0 then 1 else cfg.step.getD 1) ≠ 0 := by
      by_cases h : cfg.step.getD 1 = 0 <;> simp [h]
    unfold buildRequests plannerSpec
    simp only
    congr 1
    cases hp : cfg.pages with
    | some explicit =>
      cases hl : cfg.limit with
      | none => simp [hp, hl]
      | some lim =>
        have hlim2 : 0 ≤ lim := by
          simp only [limitOk] at hlim
          rw [hl] at hlim
          simpa using hlim
        simp only [hp, hl, pySliceTo, if_pos hlim2]
    | none =>
      cases hst : cfg.stop with
      | some stopv =>
        simp only [hp, hst]
        rw [pyRange_inclRange _ _ _ hstep]
        cases hl : cfg.limit with
        | none => rfl
        | some lim =>
          have hlim2 : 0 ≤ lim := by
            simp only [limitOk] at hlim
            rw [hl] at hlim
            simpa using hlim
          simp only [pySliceTo, if_pos hlim2]
      | none =>
        simp only [hp, hst]
        cases hl : cfg.limit with
        | none => rfl
        | some lim =>
          have hlim2 : 0 ≤ lim := by
            simp only [limitOk] at hlim
            rw [hl] at hlim
            simpa using hlim
          simp only [pySliceTo, if_pos hlim2]

/-- Witness for C5 at the spec §8 example `param = page, count = 2`:
the hypothesis holds and the planner agrees with the worded spec there
(the planned page values being 1 and 2). -/
theorem buildRequests_eq_plannerSpec_witness :
    limitOk (some { param := some "page", count := some 2 }) = true ∧
      buildRequests "https://e.x/list" (some { param := some "page", count := some 2 }) =
        plannerSpec "https://e.x/list" (some { param := some "page", count := some 2 }) ∧
      (buildRequests "https://e.x/list" (some { param := some "page", count := some 2 })).map
          (fun r => r.meta) = [[("page", 1)], [("page", 2)]] := by
  refine ⟨by decide, buildRequests_eq_plannerSpec _ _ (by decide), by decide⟩

/-- The canonical article record: the `ArticleInput` dataclass committed
in `domain/contracts.py` (url, title, portal_name, summary, content_html,
content_text, tags, published_at_raw, published_at, collected_at,
metadata).  Timestamps (`datetime` values) are modelled as opaque
strings.  Note that `CollectUseCase._build_article` calls this
constructor with a different keyword set (`content`, `published_at`, no
`portal_name`/`content_html`/`content_text`/`collected_at`), which
raises `TypeError`; the embedding of that call site models the error
(see `buildArticle`). -/
structure ArticleInput where
  url : String
  title : String
  portal_name : String
  summary : Option String
  content_html : String
  content_text : String
  tags : List String
  published_at_raw : Option String
  published_at : Option String
  collected_at : String
  metadata : List (String × String)
deriving DecidableEq

/-- Python values as seen by `Sha256Deduper._serialize`: strings, sequences
of strings, and `None` (both a missing attribute and a `None`-valued one).
The only sequence-valued field of the canonical record is `tags`, a tuple
of strings, so sequence elements are modelled as already-serialized
strings (`_serialize` is the identity on each of them). -/
inductive PyVal where
  | str (s : String)
  | list (xs : List String)
  | none
deriving DecidableEq

/-- Python `getattr(article, field, None)` on the canonical record
(an unknown field name yields the `None` default, and a `None`-valued
attribute also maps to `.none`).  The `metadata` dict attribute is not
modelled as a fingerprint field: no configuration considered here selects
it. -/
def getField (a : ArticleInput) : String → PyVal
  | "url" => .str a.url
  | "title" => .str a.title
  | "portal_name" => .str a.portal_name
  | "summary" =>
    match a.summary with
    | some s => .str s
    | Option.none => .none
  | "content_html" => .str a.content_html
  | "content_text" => .str a.content_text
  | "tags" => .list a.tags
  | "published_at_raw" =>
    match a.published_at_raw with
    | some s => .str s
    | Option.none => .none
  | "published_at" =>
    match a.published_at with
    | some s => .str s
    | Option.none => .none
  | "collected_at" => .str a.collected_at
  | _ => .none

/-- Python `sep.join(parts)`. -/
def pyJoin (sep : String) : List String → String
  | [] => ""
  | [x] => x
  | x :: y :: rest => x ++ sep ++ pyJoin sep (y :: rest)

/-- Python `sorted` on strings (lexicographic by code point, stable). -/
def pySorted (l : List String) : List String := l.mergeSort (fun a b => a ≤ b)

/-- Embedding of `Sha256Deduper._serialize`: sequences are serialized
elementwise, sorted, and joined with U+241E; anything else goes through
`str(...)` (strings unchanged, `None` rendering as "None"). -/
def serializeVal : PyVal → String
  | .str s => s
  | .none => "None"
  | .list xs => pyJoin "␞" (pySorted xs)

/-- The component list `[prefix] + serialized non-None configured fields`
built by `Sha256Deduper.fingerprint` before hashing. -/
def fingerprintComponents (fields : List String) (pfx : String) (a : ArticleInput) :
    List String :=
  pfx :: fields.filterMap (fun f =>
    match getField a f with
    | .none => Option.none
    | v => some (serializeVal v))

/-- The exact string whose UTF-8 bytes `Sha256Deduper.fingerprint` hashes:
the components joined with U+241F. -/
def payloadOf (fields : List String) (pfx : String) (a : ArticleInput) : String :=
  pyJoin "␟" (fingerprintComponents fields pfx a)

/-- UTF-8 encoding of one character (RFC 3629), as byte values. -/
def utf8Char (c : Char) : List Nat :=
  let n := c.toNat
  if n < 0x80 then [n]
  else if n < 0x800 then [0xC0 + n / 64, 0x80 + n % 64]
  else if n < 0x10000 then [0xE0 + n / 4096, 0x80 + (n / 64) % 64, 0x80 + n % 64]
  else [0xF0 + n / 262144, 0x80 + (n / 4096) % 64, 0x80 + (n / 64) % 64, 0x80 + n % 64]

/-- UTF-8 encoding of a string (`payload.encode("utf-8")`). -/
def utf8Bytes (s : String) : List Nat := s.data.flatMap utf8Char

/-- Big-endian byte rendering of `n` on `k` bytes. -/
def beBytes (k n : Nat) : List Nat :=
  (List.range k).map (fun i => (n >>> (8 * (k - 1 - i))) % 256)

/-- SHA-256 message padding (FIPS 180-4). -/
def sha256pad (m : List Nat) : List Nat :=
  let L := m.length
  let zeros := (119 - L % 64) % 64
  m ++ [0x80] ++ List.replicate zeros 0 ++ beBytes 8 (8 * L)

/-- Split a byte list into 64-byte blocks. -/
def chunks64 : List Nat → List (List Nat)
  | [] => []
  | x :: rest => ((x :: rest).take 64) :: chunks64 ((x :: rest).drop 64)
termination_by l => l.length
decreasing_by
  simp [List.length_drop]
  omega

/-- SHA-256 round constants (FIPS 180-4, written in decimal). -/
def sha256K : List Nat :=
  [1116352408, 1899447441, 3049323471, 3921009573, 961987163,
   1508970993, 2453635748, 2870763221, 3624381080, 310598401,
   607225278, 1426881987, 1925078388, 2162078206, 2614888103,
   3248222580, 3835390401, 4022224774, 264347078, 604807628,
   770255983, 1249150122, 1555081692, 1996064986, 2554220882,
   2821834349, 2952996808, 3210313671, 3336571891, 3584528711,
   113926993, 338241895, 666307205, 773529912, 1294757372,
   1396182291, 1695183700, 1986661051, 2177026350, 2456956037,
   2730485921, 2820302411, 3259730800, 3345764771, 3516065817,
   3600352804, 4094571909, 275423344, 430227734, 506948616,
   659060556, 883997877, 958139571, 1322822218, 1537002063,
   1747873779, 1955562222, 2024104815, 2227730452, 2361852424,
   2428436474, 2756734187, 3204031479, 3329325298]

/-- 32-bit right rotation over `Nat`. -/
def rotr32 (n x : Nat) : Nat := ((x >>> n) ||| (x <<< (32 - n))) % (2 ^ 32)

/-- The 64-entry SHA-256 message schedule from a 16-word block. -/
def sha256Schedule (w : List Nat) (i : Nat) : List Nat :=
  if i = 0 then w
  else
    let prev := sha256Schedule w (i - 1)
    let g := fun j => prev.getD (prev.length - j) 0
    let s0 := (rotr32 7 (g 15)) ^^^ (rotr32 18 (g 15)) ^^^ ((g 15) >>> 3)
    let s1 := (rotr32 17 (g 2)) ^^^ (rotr32 19 (g 2)) ^^^ ((g 2) >>> 10)
    prev ++ [((g 16) + s0 + (g 7) + s1) % (2 ^ 32)]

/-- One SHA-256 compression round. -/
def sha256Round (st : List Nat) (kw : Nat × Nat) : List Nat :=
  match st with
  | [a, b, c, d, e, f, g, h] =>
    let s1 := (rotr32 6 e) ^^^ (rotr32 11 e) ^^^ (rotr32 25 e)
    let ch := (e &&& f) ^^^ ((2 ^ 32 - 1 - e) &&& g)
    let t1 := (h + s1 + ch + kw.1 + kw.2) % (2 ^ 32)
    let s0 := (rotr32 2 a) ^^^ (rotr32 13 a) ^^^ (rotr32 22 a)
    let mj := (a &&& b) ^^^ (a &&& c) ^^^ (b &&& c)
    let t2 := (s0 + mj) % (2 ^ 32)
    [(t1 + t2) % (2 ^ 32), a, b, c, (d + t1) % (2 ^ 32), e, f, g]
  | other => other

/-- SHA-256 compression of one 64-byte block into the running hash. -/
def sha256Block (h : List Nat) (block : List Nat) : List Nat :=
  let words16 := (List.range 16).map (fun i =>
    (block.getD (4 * i) 0) * 0x1000000 + (block.getD (4 * i + 1) 0) * 0x10000 +
      (block.getD (4 * i + 2) 0) * 0x100 + block.getD (4 * i + 3) 0)
  let w := sha256Schedule words16 48
  let final := (sha256K.zip w).foldl sha256Round h
  (h.zip final).map (fun p => (p.1 + p.2) % (2 ^ 32))

/-- SHA-256 digest (as eight 32-bit words) of a byte sequence. -/
def sha256Words (m : List Nat) : List Nat :=
  (chunks64 (sha256pad m)).foldl sha256Block
    [1779033703, 3144134277, 1013904242, 2773480762, 1359893119, 2600822924, 528734635, 1541459225]

/-- Lower-case hexadecimal digit. -/
def hexDigit (n : Nat) : Char := if n < 10 then Char.ofNat (48 + n) else Char.ofNat (87 + n)

/-- Python `hashlib.sha256(s.encode("utf-8")).hexdigest()`. -/
def sha256hex (s : String) : String :=
  String.mk ((sha256Words (utf8Bytes s)).flatMap (fun w =>
    (List.range 8).map (fun i => hexDigit ((w >>> (4 * (7 - i))) % 16))))

/-- Embedding of `Sha256Deduper.fingerprint` for a configured field tuple
and prefix (defaults: fields `url`, empty prefix). -/
def fingerprint (fields : List String) (pfx : String) (a : ArticleInput) : String :=
  sha256hex (payloadOf fields pfx a)

/-- Article whose title embeds the U+241F component separator. -/
def c4A : ArticleInput :=
  { url := "", title := "a␟b", portal_name := "", summary := some "c",
    content_html := "", content_text := "", tags := [], published_at_raw := none,
    published_at := none, collected_at := "", metadata := [] }

/-- Article with the separator shifted into the summary field. -/
def c4B : ArticleInput :=
  { url := "", title := "a", portal_name := "", summary := some "b␟c",
    content_html := "", content_text := "", tags := [], published_at_raw := none,
    published_at := none, collected_at := "", metadata := [] }

/-- C4 counterexample: two canonical records that differ in the configured
`title` field but receive the same digest, because the serialized component
lists collide on the U+241F join. -/
theorem fingerprint_collision_C4 :
    c4A.title ≠ c4B.title ∧
      fingerprint ["title", "summary"] "" c4A = fingerprint ["title", "summary"] "" c4B := by
  constructor
  · decide
  · show sha256hex (payloadOf ["title", "summary"] "" c4A) =
      sha256hex (payloadOf ["title", "summary"] "" c4B)
    exact congrArg sha256hex (by decide)

/-- Field value that serializes to a string free of the U+241F separator
(in particular it is not `None`, so it is not skipped). -/
def sepFreeStr : PyVal → Bool
  | .str s => decide (Char.ofNat 0x241F ∉ s.data)
  | _ => false

/-- Character-level join with a single separator character. -/
def joinChar (c : Char) : List (List Char) → List Char
  | [] => []
  | [x] => x
  | x :: y :: rest => x ++ c :: joinChar c (y :: rest)

theorem pyJoin_data (sep : String) (c : Char) (hsep : sep.data = [c]) :
    ∀ l : List String, (pyJoin sep l).data = joinChar c (l.map String.data)
  | [] => rfl
  | [_] => rfl
  | x :: y :: rest => by
    have ih := pyJoin_data sep c hsep (y :: rest)
    show (x ++ sep ++ pyJoin sep (y :: rest)).data = _
    rw [String.data_append, String.data_append, hsep, ih]
    simp [joinChar]

theorem append_sepchar_inj (c : Char) :
    ∀ (x y p q : List Char), c ∉ x → c ∉ y → x ++ c :: p = y ++ c :: q → x = y ∧ p = q := by
  intro x
  induction x with
  | nil =>
    intro y p q _ hy h
    cases y with
    | nil =>
      simp only [List.nil_append] at h
      injection h with _ h2
      exact ⟨rfl, h2⟩
    | cons b y2 =>
      exfalso
      simp only [List.nil_append, List.cons_append] at h
      injection h with h1 _
      subst h1
      exact hy (List.mem_cons_self _ _)
  | cons a x2 ih =>
    intro y p q hx hy h
    cases y with
    | nil =>
      exfalso
      simp only [List.cons_append, List.nil_append] at h
      injection h with h1 _
      subst h1
      exact hx (List.mem_cons_self _ _)
    | cons b y2 =>
      simp only [List.cons_append] at h
      injection h with h1 h2
      subst h1
      have hx2 : c ∉ x2 := fun hm => hx (List.mem_cons_of_mem _ hm)
      have hy2 : c ∉ y2 := fun hm => hy (List.mem_cons_of_mem _ hm)
      obtain ⟨he, hpq⟩ := ih y2 p q hx2 hy2 h2
      exact ⟨by rw [he], hpq⟩

theorem joinChar_inj (c : Char) :
    ∀ (xs ys : List (List Char)), xs.length = ys.length →
      (∀ x ∈ xs, c ∉ x) → (∀ y ∈ ys, c ∉ y) →
      joinChar c xs = joinChar c ys → xs = ys
  | [], [], _, _, _, _ => rfl
  | [], _ :: _, hlen, _, _, _ => by simp at hlen
  | _ :: _, [], hlen, _, _, _ => by simp at hlen
  | [x], [y], _, _, _, h => by
    have hxy : x = y := h
    rw [hxy]
  | [_], _ :: _ :: _, hlen, _, _, _ => by simp at hlen
  | _ :: _ :: _, [_], hlen, _, _, _ => by simp at hlen
  | x1 :: x2 :: xs, y1 :: y2 :: ys, hlen, hx, hy, h => by
    have h2 : x1 ++ c :: joinChar c (x2 :: xs) = y1 ++ c :: joinChar c (y2 :: ys) := h
    obtain ⟨he, ht⟩ := append_sepchar_inj c x1 y1 _ _
      (hx x1 (List.mem_cons_self _ _)) (hy y1 (List.mem_cons_self _ _)) h2
    have hrest := joinChar_inj c (x2 :: xs) (y2 :: ys) (by simpa using hlen)
      (fun z hz => hx z (List.mem_cons_of_mem _ hz))
      (fun z hz => hy z (List.mem_cons_of_mem _ hz)) ht
    rw [he, hrest]

theorem joinChar_cons_inj (c : Char) (p : List Char) (xs ys : List (List Char))
    (hlen : xs.length = ys.length) (hx : ∀ x ∈ xs, c ∉ x) (hy : ∀ y ∈ ys, c ∉ y)
    (h : joinChar c (p :: xs) = joinChar c (p :: ys)) : xs = ys := by
  cases xs with
  | nil =>
    cases ys with
    | nil => rfl
    | cons y ys2 => simp at hlen
  | cons x xs2 =>
    cases ys with
    | nil => simp at hlen
    | cons y ys2 =>
      have h2 : p ++ c :: joinChar c (x :: xs2) = p ++ c :: joinChar c (y :: ys2) := h
      have h3 := List.append_cancel_left h2
      injection h3 with _ h4
      exact joinChar_inj c (x :: xs2) (y :: ys2) hlen hx hy h4

theorem components_eq_map (a : ArticleInput) :
    ∀ (fields : List String), (∀ f ∈ fields, sepFreeStr (getField a f) = true) →
      (fields.filterMap (fun f =>
        match getField a f with
        | .none => Option.none
        | v => some (serializeVal v))) =
      fields.map (fun f => serializeVal (getField a f)) := by
  intro fields
  induction fields with
  | nil => intro _; rfl
  | cons f fs ih =>
    intro h
    have hf := h f (List.mem_cons_self _ _)
    have hfs := ih (fun g hg => h g (List.mem_cons_of_mem _ hg))
    cases hgf : getField a f with
    | str s => simp [List.filterMap_cons, hgf, hfs]
    | list xs => rw [hgf] at hf; simp [sepFreeStr] at hf
    | none => rw [hgf] at hf; simp [sepFreeStr] at hf

/-- C4 (amended): for a fixed field set, two records whose configured
fields all hold separator-free (hence non-None) string values and that
differ in at least one configured field receive different serialization
payloads; the digest is SHA-256 of exactly this payload, so the digests
differ whenever SHA-256 does not collide on them, while a None-valued or
separator-carrying field can make distinct records share one digest. -/
theorem fingerprint_payload_injective_C4 (fields : List String) (pfx : String)
    (a1 a2 : ArticleInput)
    (h1 : ∀ f ∈ fields, sepFreeStr (getField a1 f) = true)
    (h2 : ∀ f ∈ fields, sepFreeStr (getField a2 f) = true)
    (hdiff : ∃ f ∈ fields, getField a1 f ≠ getField a2 f) :
    payloadOf fields pfx a1 ≠ payloadOf fields pfx a2 := by
  intro heq
  obtain ⟨f0, hf0mem, hf0ne⟩ := hdiff
  have hdata := congrArg String.data heq
  rw [payloadOf, payloadOf, fingerprintComponents, fingerprintComponents,
    components_eq_map a1 fields h1, components_eq_map a2 fields h2,
    pyJoin_data "␟" (Char.ofNat 0x241F) rfl, pyJoin_data "␟" (Char.ofNat 0x241F) rfl] at hdata
  simp only [List.map_cons, List.map_map] at hdata
  have hside1 : ∀ x ∈ fields.map (String.data ∘ fun f => serializeVal (getField a1 f)),
      Char.ofNat 0x241F ∉ x := by
    intro x hx
    obtain ⟨f, hf, rfl⟩ := List.mem_map.mp hx
    have := h1 f hf
    cases hgf : getField a1 f with
    | str s =>
      rw [hgf] at this
      simp only [sepFreeStr] at this
      simpa [hgf, serializeVal] using of_decide_eq_true this
    | list xs => rw [hgf] at this; simp [sepFreeStr] at this
    | none => rw [hgf] at this; simp [sepFreeStr] at this
  have hside2 : ∀ x ∈ fields.map (String.data ∘ fun f => serializeVal (getField a2 f)),
      Char.ofNat 0x241F ∉ x := by
    intro x hx
    obtain ⟨f, hf, rfl⟩ := List.mem_map.mp hx
    have := h2 f hf
    cases hgf : getField a2 f with
    | str s =>
      rw [hgf] at this
      simp only [sepFreeStr] at this
      simpa [hgf, serializeVal] using of_decide_eq_true this
    | list xs => rw [hgf] at this; simp [sepFreeStr] at this
    | none => rw [hgf] at this; simp [sepFreeStr] at this
  have hmaps := joinChar_cons_inj (Char.ofNat 0x241F) pfx.data _ _
    (by simp) hside1 hside2 hdata
  have hpt : (String.data ∘ fun f => serializeVal (getField a1 f)) f0 =
      (String.data ∘ fun f => serializeVal (getField a2 f)) f0 := by
    have := List.map_inj_left.mp hmaps f0 hf0mem
    exact this
  simp only [Function.comp_apply] at hpt
  have hstr : serializeVal (getField a1 f0) = serializeVal (getField a2 f0) := by
    cases hs1 : serializeVal (getField a1 f0)
    cases hs2 : serializeVal (getField a2 f0)
    rw [hs1, hs2] at hpt
    exact congrArg String.mk hpt
  have hv1 := h1 f0 hf0mem
  have hv2 := h2 f0 hf0mem
  cases hg1 : getField a1 f0 with
  | str s1 =>
    cases hg2 : getField a2 f0 with
    | str s2 =>
      rw [hg1, hg2] at hstr
      simp only [serializeVal] at hstr
      exact hf0ne (by rw [hg1, hg2, hstr])
    | list xs => rw [hg2] at hv2; simp [sepFreeStr] at hv2
    | none => rw [hg2] at hv2; simp [sepFreeStr] at hv2
  | list xs => rw [hg1] at hv1; simp [sepFreeStr] at hv1
  | none => rw [hg1] at hv1; simp [sepFreeStr] at hv1

/-- Article with url "a" for the C4 witness. -/
def c4W1 : ArticleInput :=
  { url := "a", title := "", portal_name := "", summary := none,
    content_html := "", content_text := "", tags := [], published_at_raw := none,
    published_at := none, collected_at := "", metadata := [] }

/-- Article with url "b" for the C4 witness. -/
def c4W2 : ArticleInput :=
  { url := "b", title := "", portal_name := "", summary := none,
    content_html := "", content_text := "", tags := [], published_at_raw := none,
    published_at := none, collected_at := "", metadata := [] }

/-- Witness for the amended C4 theorem on the default `url` field set. -/
theorem fingerprint_payload_injective_C4_witness :
    (∀ f ∈ ["url"], sepFreeStr (getField c4W1 f) = true) ∧
      (∀ f ∈ ["url"], sepFreeStr (getField c4W2 f) = true) ∧
      (∃ f ∈ ["url"], getField c4W1 f ≠ getField c4W2 f) ∧
      payloadOf ["url"] "" c4W1 ≠ payloadOf ["url"] "" c4W2 :=
  ⟨by decide, by decide, by decide,
    fingerprint_payload_injective_C4 ["url"] "" c4W1 c4W2 (by decide) (by decide) (by decide)⟩

/-- Python exceptions as the orchestrator distinguishes them: recognized
domain errors (`FarolError` and its subclasses) versus any other
exception class. -/
inductive PyErr where
  | farol (msg : String)
  | other (msg : String)
deriving DecidableEq

deriving instance DecidableEq for Except

/-- Raw item delivered by the scraper collaborator (`ScrapedItem`). -/
structure ScrapedItem where
  url : String
  title : Option String
  content_html : String
  summary_html : Option String := none
  tags : List String := []
  published_at : Option String := none
  metadata : List (String × String) := []
deriving DecidableEq

/-- One configured page entry (its url and optional metadata mapping). -/
structure PageCfg where
  url : String
  metadata : List (String × String) := []
deriving DecidableEq

/-- Collaborator call events.  The trace of these events is
instrumentation of the embedding: the orchestrator records one event at
each collaborator call site so that theorems can state which pipeline
steps an item reaches. -/
inductive CallEv where
  | fetchPage (url : String)
  | toAbsolute (url : String) (base : String)
  | fingerprintCall (url : String)
  | isNewCall (fp : String)
  | writeCall (url : String)
deriving DecidableEq

/-- The injected collaborators of `CollectUseCase` (scraper, url/date
normalizers, text cleaner, deduper, writer, clock), all fallible.  `DS` is
the private state of the deduper's side-effecting `is_new`.  The clock is
modelled as returning a fixed timestamp string for the run (as the
repository's own test stubs do); no claim depends on successive clock
values. -/
structure Collabs (DS : Type) where
  fetchPage : PageCfg → Except PyErr (List ScrapedItem)
  toAbsolute : String → String → Except PyErr String
  sanitizeHtml : String → Except PyErr String
  cleanHtmlToText : String → Except PyErr String
  dateParse : String → Except PyErr (Option String)
  fingerprintOf : ArticleInput → Except PyErr String
  isNew : String → DS → Except PyErr (Bool × DS)
  write : ArticleInput → Except PyErr String
  now : String

/-- Persisted-item record appended on success:
url, article id, fingerprint, processing timestamp. -/
structure PersistedItem where
  url : String
  article_id : String
  fingerprint : String
  processed_at : String
deriving DecidableEq

/-- Mutable state of one orchestrator run: the seen-URL set, the metric
counters (one per skip bucket), fetched-page count, the persisted items,
the deduper state and the recorded collaborator calls. -/
structure RunState (DS : Type) where
  seen : List String
  processed : Nat
  skippedUrl : Nat
  skippedFingerprint : Nat
  skippedInvalid : Nat
  skippedWrite : Nat
  pagesFetched : Nat
  persisted : List PersistedItem
  ds : DS
  calls : List CallEv

/-- Fresh run state. -/
def initState (ds : DS) : RunState DS :=
  { seen := [], processed := 0, skippedUrl := 0, skippedFingerprint := 0,
    skippedInvalid := 0, skippedWrite := 0, pagesFetched := 0, persisted := [],
    ds := ds, calls := [] }

/-- The candidate values `_build_article` computes before the record
constructor call: sanitized body markup, cleaned summary text, resolved
title, parsed published-at and merged metadata. -/
structure BuildFields where
  content : String
  summary : String
  title : String
  published_at : Option String
  metadata : List (String × String)
deriving DecidableEq

/-- The computation of `CollectUseCase._build_article` up to (excluding)
the record constructor: an empty body raises a domain error; the content
is the sanitized body markup; the summary is the cleaned text of the
explicit summary markup when one is not None, else of the body; the title
falls back through the item title, the cleaned summary text, and the
fixed string "Sem título"; the published-at goes through the date
normalizer only for a non-empty raw string; the metadata merges page
metadata below item metadata and defaults `normalized_at` to the clock
value. -/
def buildArticleFields (C : Collabs DS) (item : ScrapedItem)
    (pageMetadata : List (String × String)) : Except PyErr BuildFields :=
  if item.content_html = "" then .error (.farol "Artigo sem conteudo")
  else
    match C.sanitizeHtml item.content_html with
    | .error e => .error e
    | .ok sanitizedHtml =>
      match C.cleanHtmlToText (item.summary_html.getD item.content_html) with
      | .error e => .error e
      | .ok summaryText =>
        let pubResult : Except PyErr (Option String) :=
          match item.published_at with
          | some s => if s = "" then .ok Option.none else C.dateParse s
          | Option.none => .ok Option.none
        match pubResult with
        | .error e => .error e
        | .ok publishedAt =>
          .ok { content := sanitizedHtml, summary := summaryText,
                title := pyOrS (item.title.getD "") (pyOrS summaryText "Sem título"),
                published_at := publishedAt,
                metadata := dictSetdefault "normalized_at" C.now
                  (dictMerge pageMetadata item.metadata) }

/-- Embedding of `CollectUseCase._build_article`: after computing the
candidate field values it calls `ArticleInput(url=..., title=...,
content=..., summary=..., tags=..., published_at=..., metadata=...)`
(collect_usecase.py line 254).  Against the committed
`contracts.ArticleInput` dataclass this call always raises `TypeError`
(`content` is not a field; `portal_name`, `content_html`, `content_text`
and `collected_at` are required), a non-domain error, so the committed
function can never return a record. -/
def buildArticle (C : Collabs DS) (item : ScrapedItem) (normalizedUrl : String)
    (pageMetadata : List (String × String)) : Except PyErr ArticleInput :=
  match buildArticleFields C item pageMetadata with
  | .error e => .error e
  | .ok _ => .error (.other "TypeError: ArticleInput() got an unexpected keyword argument")

/-- Embedding of the per-item body of `CollectUseCase.execute`: normalize
the URL (uncaught failure aborts), skip an already-seen URL into the `url`
bucket, mark the URL seen, build the article catching only domain errors
into the `invalid` bucket, fingerprint and consult the deduper (uncaught),
write catching only domain errors into the `write` bucket, and on success
count and append the persisted record.  The second component is `some e`
when an exception propagates out of the loop (aborting the run). -/
def processItem (C : Collabs DS) (pageUrl : String) (pageMeta : List (String × String))
    (item : ScrapedItem) (st : RunState DS) : RunState DS × Option PyErr :=
  let st0 := { st with calls := st.calls ++ [.toAbsolute item.url pageUrl] }
  match C.toAbsolute item.url pageUrl with
  | .error e => (st0, some e)
  | .ok normalizedUrl =>
    if normalizedUrl ∈ st0.seen then
      ({ st0 with skippedUrl := st0.skippedUrl + 1 }, Option.none)
    else
      let st1 := { st0 with seen := normalizedUrl :: st0.seen }
      match buildArticle C item normalizedUrl pageMeta with
      | .error (.farol _) => ({ st1 with skippedInvalid := st1.skippedInvalid + 1 }, Option.none)
      | .error (.other m) => (st1, some (.other m))
      | .ok article =>
        let st2 := { st1 with calls := st1.calls ++ [.fingerprintCall normalizedUrl] }
        match C.fingerprintOf article with
        | .error e => (st2, some e)
        | .ok fp =>
          let st3 := { st2 with calls := st2.calls ++ [.isNewCall fp] }
          match C.isNew fp st3.ds with
          | .error e => (st3, some e)
          | .ok (isnew, ds2) =>
            let st4 := { st3 with ds := ds2 }
            if isnew then
              let st5 := { st4 with calls := st4.calls ++ [.writeCall normalizedUrl] }
              match C.write article with
              | .error (.farol _) =>
                ({ st5 with skippedWrite := st5.skippedWrite + 1 }, Option.none)
              | .error (.other m) => (st5, some (.other m))
              | .ok articleId =>
                ({ st5 with
                    processed := st5.processed + 1
                    persisted := st5.persisted ++
                      [{ url := article.url, article_id := articleId, fingerprint := fp,
                         processed_at := C.now }] }, Option.none)
            else
              ({ st4 with skippedFingerprint := st4.skippedFingerprint + 1 }, Option.none)

/-- The strictly-in-order item loop; stops at the first propagating
exception. -/
def processItems (C : Collabs DS) (pageUrl : String) (pageMeta : List (String × String)) :
    List ScrapedItem → RunState DS → RunState DS × Option PyErr
  | [], st => (st, Option.none)
  | item :: rest, st =>
    match processItem C pageUrl pageMeta item st with
    | (st2, some e) => (st2, some e)
    | (st2, Option.none) => processItems C pageUrl pageMeta rest st2

/-- Embedding of the per-page body of `CollectUseCase.execute`: fetch the
page items (a domain error re-raises as is, any other exception re-raises
wrapped in a domain error), count the page as fetched, then run the item
loop. -/
def processPage (C : Collabs DS) (page : PageCfg) (st : RunState DS) :
    RunState DS × Option PyErr :=
  let st0 := { st with calls := st.calls ++ [.fetchPage page.url] }
  match C.fetchPage page with
  | .error (.farol m) => (st0, some (.farol m))
  | .error (.other _) => (st0, some (.farol "Erro inesperado durante a coleta"))
  | .ok items =>
    let st1 := { st0 with pagesFetched := st0.pagesFetched + 1 }
    processItems C page.url page.metadata items st1

/-- The strictly-in-order page loop. -/
def runPages (C : Collabs DS) : List PageCfg → RunState DS → RunState DS × Option PyErr
  | [], st => (st, Option.none)
  | p :: rest, st =>
    match processPage C p st with
    | (st2, some e) => (st2, some e)
    | (st2, Option.none) => runPages C rest st2

/-- The metrics-and-items report returned by a completed run. -/
structure RunResult where
  processed : Nat
  skippedUrl : Nat
  skippedFingerprint : Nat
  skippedInvalid : Nat
  skippedWrite : Nat
  pagesTotal : Nat
  pagesFetched : Nat
  items : List PersistedItem
deriving DecidableEq

/-- Embedding of `CollectUseCase.execute`: runs the pages over a fresh
state and reports metrics plus persisted items, or the first propagating
exception. -/
def executeRun (C : Collabs DS) (pages : List PageCfg) (ds0 : DS) : Except PyErr RunResult :=
  match runPages C pages (initState ds0) with
  | (_, some e) => .error e
  | (st, Option.none) =>
    .ok { processed := st.processed, skippedUrl := st.skippedUrl,
          skippedFingerprint := st.skippedFingerprint, skippedInvalid := st.skippedInvalid,
          skippedWrite := st.skippedWrite, pagesTotal := pages.length,
          pagesFetched := st.pagesFetched, items := st.persisted }

theorem processItem_seen_eq {DS} (C : Collabs DS) (pageUrl : String)
    (pageMeta : List (String × String)) (item : ScrapedItem) (st : RunState DS)
    (nurl : String) (hnorm : C.toAbsolute item.url pageUrl = .ok nurl)
    (hseen : nurl ∈ st.seen) :
    processItem C pageUrl pageMeta item st =
      ({ st with
          skippedUrl := st.skippedUrl + 1
          calls := st.calls ++ [.toAbsolute item.url pageUrl] }, Option.none) := by
  simp only [processItem, hnorm]
  simp [hseen]

/-- C3: within one run, an item whose absolute URL was already seen is
counted under the `url` bucket and the loop continues; the resulting state
records no further collaborator call for it (no article fetch, no
fingerprinting, no deduper consultation, no write) and leaves every other
state component unchanged. -/
theorem duplicate_url_skipped_C3 {DS} (C : Collabs DS) (pageUrl : String)
    (pageMeta : List (String × String)) (item : ScrapedItem) (st : RunState DS)
    (nurl : String) (hnorm : C.toAbsolute item.url pageUrl = .ok nurl)
    (hseen : nurl ∈ st.seen) :
    processItem C pageUrl pageMeta item st =
      ({ st with
          skippedUrl := st.skippedUrl + 1
          calls := st.calls ++ [.toAbsolute item.url pageUrl] }, Option.none) :=
  processItem_seen_eq C pageUrl pageMeta item st nurl hnorm hseen

/-- Collaborators for the C3 witness. -/
def c3C : Collabs Unit :=
  { fetchPage := fun _ => .ok []
    toAbsolute := fun u b => .ok (b ++ u)
    sanitizeHtml := fun s => .ok s
    cleanHtmlToText := fun s => .ok s
    dateParse := fun _ => .ok Option.none
    fingerprintOf := fun a => .ok a.url
    isNew := fun _ ds => .ok (true, ds)
    write := fun _ => .ok "id"
    now := "t0" }

/-- Item for the C3 witness. -/
def c3Item : ScrapedItem :=
  { url := "/a", title := some "T", content_html := "<p>x</p>" }

/-- A run state that has already seen the witness URL. -/
def c3St : RunState Unit := { initState () with seen := ["https://e.x/a"] }

/-- Witness for C3 at a concrete duplicate item. -/
theorem duplicate_url_skipped_C3_witness :
    c3C.toAbsolute c3Item.url "https://e.x" = .ok "https://e.x/a" ∧
      ("https://e.x/a" ∈ c3St.seen) ∧
      processItem c3C "https://e.x" [] c3Item c3St =
        ({ c3St with
            skippedUrl := c3St.skippedUrl + 1
            calls := c3St.calls ++ [.toAbsolute c3Item.url "https://e.x"] }, Option.none) :=
  ⟨by decide, by decide,
    duplicate_url_skipped_C3 c3C "https://e.x" [] c3Item c3St "https://e.x/a"
      (by decide) (by decide)⟩

/-- C10: an item's normalized absolute URL is in the seen set immediately
after the item is processed, whatever the outcome (the state is returned
even when the second component aborts the run, covering build, fingerprint
and write failures); and any later item of the run resolving to that URL
is counted under the `url` bucket, with no further collaborator calls. -/
theorem url_marked_seen_C10 {DS} (C : Collabs DS) (pageUrl : String)
    (pageMeta : List (String × String)) (item : ScrapedItem) (st : RunState DS)
    (nurl : String) (hnorm : C.toAbsolute item.url pageUrl = .ok nurl) :
    nurl ∈ (processItem C pageUrl pageMeta item st).1.seen ∧
      (∀ (item2 : ScrapedItem) (st2 : RunState DS),
        C.toAbsolute item2.url pageUrl = .ok nurl → nurl ∈ st2.seen →
        processItem C pageUrl pageMeta item2 st2 =
          ({ st2 with
              skippedUrl := st2.skippedUrl + 1
              calls := st2.calls ++ [.toAbsolute item2.url pageUrl] }, Option.none)) := by
  constructor
  · simp only [processItem, hnorm]
    by_cases hseen : nurl ∈ st.seen
    · simp [hseen]
    · simp only [hseen]
      cases hb : buildArticle C item nurl pageMeta with
      | error e =>
        cases e with
        | farol m => simp [hb]
        | other m => simp [hb]
      | ok article =>
        cases hf : C.fingerprintOf article with
        | error e => simp [hb, hf]
        | ok fp =>
          cases hn : C.isNew fp st.ds with
          | error e => simp [hb, hf, hn]
          | ok pr =>
            obtain ⟨isnew, ds2⟩ := pr
            cases isnew with
            | false => simp [hb, hf, hn]
            | true =>
              cases hw : C.write article with
              | error e =>
                cases e with
                | farol m => simp [hb, hf, hn, hw]
                | other m => simp [hb, hf, hn, hw]
              | ok articleId => simp [hb, hf, hn, hw]
  · intro item2 st2 hnorm2 hseen2
    exact processItem_seen_eq C pageUrl pageMeta item2 st2 nurl hnorm2 hseen2

/-- Collaborators for the C10 witness, whose build step always fails with
a domain error (the sanitizer raises). -/
def c10C : Collabs Unit :=
  { fetchPage := fun _ => .ok []
    toAbsolute := fun u b => .ok (b ++ u)
    sanitizeHtml := fun _ => .error (.farol "sanitizer boom")
    cleanHtmlToText := fun s => .ok s
    dateParse := fun _ => .ok Option.none
    fingerprintOf := fun a => .ok a.url
    isNew := fun _ ds => .ok (true, ds)
    write := fun _ => .ok "id"
    now := "t0" }

/-- First witness item for C10. -/
def c10Item : ScrapedItem :=
  { url := "/a", title := some "T", content_html := "<p>x</p>" }

/-- Second witness item for C10, resolving to the same URL. -/
def c10Item2 : ScrapedItem :=
  { url := "/a", title := some "Other", content_html := "<p>y</p>" }

/-- State after the first C10 item was processed (its build failed, yet
the URL stays marked as seen). -/
def c10St2 : RunState Unit := (processItem c10C "https://e.x" [] c10Item (initState ())).1

/-- Witness for C10: the first item's build fails with a domain error,
its URL is nevertheless in the seen set afterwards, and the second item
resolving to the same URL is skipped into the `url` bucket. -/
theorem url_marked_seen_C10_witness :
    c10C.toAbsolute c10Item.url "https://e.x" = .ok "https://e.x/a" ∧
      buildArticle c10C c10Item "https://e.x/a" [] = .error (.farol "sanitizer boom") ∧
      c10St2.skippedInvalid = 1 ∧
      ("https://e.x/a" ∈ (processItem c10C "https://e.x" [] c10Item (initState ())).1.seen) ∧
      processItem c10C "https://e.x" [] c10Item2 c10St2 =
        ({ c10St2 with
            skippedUrl := c10St2.skippedUrl + 1
            calls := c10St2.calls ++ [.toAbsolute c10Item2.url "https://e.x"] }, Option.none) :=
  ⟨by decide, by decide, by decide,
    (url_marked_seen_C10 c10C "https://e.x" [] c10Item (initState ()) "https://e.x/a"
      (by decide)).1,
    (url_marked_seen_C10 c10C "https://e.x" [] c10Item (initState ()) "https://e.x/a"
      (by decide)).2 c10Item2 c10St2 (by decide) (by decide)⟩

/-- Item used by the C2 counterexample and witness: an ordinary item
with a body, a title and a raw published-at string. -/
def c2wItem : ScrapedItem :=
  { url := "/a", title := some "T", content_html := "<p>x</p>",
    published_at := some "2024-01-01" }

/-- Benign collaborators delivering that one item: every collaborator
succeeds, so the only failure left on the item path is the record
constructor itself. -/
def c2runC : Collabs Unit :=
  { fetchPage := fun _ => .ok [c2wItem]
    toAbsolute := fun u b => .ok (b ++ u)
    sanitizeHtml := fun s => .ok s
    cleanHtmlToText := fun s => .ok s
    dateParse := fun _ => .ok Option.none
    fingerprintOf := fun a => .ok a.url
    isNew := fun _ ds => .ok (true, ds)
    write := fun _ => .ok "id"
    now := "t0" }

/-- C2 counterexample: with benign collaborators a single ordinary item
aborts the whole run.  The pre-constructor computation succeeds, the
record constructor raises TypeError (not a FarolError), no skip bucket
receives the failure, and execute propagates the exception instead of
continuing with the next item. -/
theorem item_failure_aborts_run_C2 :
    buildArticleFields c2runC c2wItem [] =
      .ok { content := "<p>x</p>", summary := "<p>x</p>", title := "T",
            published_at := Option.none, metadata := [("normalized_at", "t0")] } ∧
      executeRun c2runC [{ url := "L", metadata := [] }] () =
        .error (.other "TypeError: ArticleInput() got an unexpected keyword argument") :=
  ⟨by decide, by decide⟩

/-- C2 (amended): only a recognized domain error raised in the build
step before the record constructor is isolated — it increments the
`invalid` bucket and the loop continues; a non-domain build failure (in
the committed program, the constructor TypeError of every item that gets
that far) propagates and aborts the run, leaving the fingerprint and
write steps unreachable.  In both cases the URL stays marked as seen. -/
theorem domain_failures_isolated_C2 {DS} (C : Collabs DS) (pageUrl : String)
    (pageMeta : List (String × String)) (item : ScrapedItem) (st : RunState DS)
    (nurl : String) (m : String)
    (hnorm : C.toAbsolute item.url pageUrl = .ok nurl)
    (hnew : nurl ∉ st.seen) :
    (buildArticle C item nurl pageMeta = .error (.farol m) →
      processItem C pageUrl pageMeta item st =
        ({ st with
            seen := nurl :: st.seen
            skippedInvalid := st.skippedInvalid + 1
            calls := st.calls ++ [.toAbsolute item.url pageUrl] }, Option.none)) ∧
    (buildArticle C item nurl pageMeta = .error (.other m) →
      processItem C pageUrl pageMeta item st =
        ({ st with
            seen := nurl :: st.seen
            calls := st.calls ++ [.toAbsolute item.url pageUrl] }, some (.other m))) := by
  constructor
  · intro hb
    simp only [processItem, hnorm]
    simp [hnew, hb]
  · intro hb
    simp only [processItem, hnorm]
    simp [hnew, hb]

/-- Collaborators for the C2 witness whose build step fails with a domain
error before the constructor (the date normalizer raises one). -/
def c2wC : Collabs Unit :=
  { fetchPage := fun _ => .ok []
    toAbsolute := fun u b => .ok (b ++ u)
    sanitizeHtml := fun s => .ok s
    cleanHtmlToText := fun s => .ok s
    dateParse := fun _ => .error (.farol "NormalizeError")
    fingerprintOf := fun a => .ok a.url
    isNew := fun _ ds => .ok (true, ds)
    write := fun _ => .ok "id"
    now := "t0" }

/-- Witness for the amended C2 theorem: a pre-constructor domain error
(date normalizer) lands in the `invalid` bucket and the loop continues;
the constructor TypeError aborts, the state still carrying the seen
URL. -/
theorem domain_failures_isolated_C2_witness :
    processItem c2wC "https://e.x" [] c2wItem (initState ()) =
      ({ initState () with
          seen := ["https://e.x/a"]
          skippedInvalid := 1
          calls := [.toAbsolute "/a" "https://e.x"] }, Option.none) ∧
    processItem c2runC "https://e.x" [] c2wItem (initState ()) =
      ({ initState () with
          seen := ["https://e.x/a"]
          calls := [.toAbsolute "/a" "https://e.x"] },
        some (.other "TypeError: ArticleInput() got an unexpected keyword argument")) :=
  ⟨(domain_failures_isolated_C2 c2wC "https://e.x" [] c2wItem (initState ()) "https://e.x/a"
      "NormalizeError" (by decide) (by decide)).1 (by decide),
    (domain_failures_isolated_C2 c2runC "https://e.x" [] c2wItem (initState ()) "https://e.x/a"
      "TypeError: ArticleInput() got an unexpected keyword argument" (by decide) (by decide)).2
      (by decide)⟩

/-- Identity-like collaborators for the C1 failing-input evaluation: the
cleaner returns the text unchanged and every collaborator succeeds. -/
def c1C : Collabs Unit :=
  { fetchPage := fun _ => .ok []
    toAbsolute := fun u b => .ok (b ++ u)
    sanitizeHtml := fun s => .ok s
    cleanHtmlToText := fun s => .ok s
    dateParse := fun _ => .ok (some "1999-01-01T00:00:00")
    fingerprintOf := fun a => .ok a.url
    isNew := fun _ ds => .ok (true, ds)
    write := fun _ => .ok "id"
    now := "t0" }

/-- Item with a body but no title at all and no explicit summary. -/
def c1Item : ScrapedItem :=
  { url := "/a", title := Option.none, content_html := "corpo" }

/-- C1: evaluating `_build_article` at the failing input.  The
pre-constructor computation succeeds — and already its resolved title is
the cleaned summary text "corpo", not a configured fallback title — and
the record constructor call then raises TypeError against the committed
`contracts.ArticleInput` dataclass, so no canonical record is ever
produced and the non-domain error aborts the run. -/
theorem buildArticle_typeerror_C1 :
    buildArticleFields c1C c1Item [] =
      .ok { content := "corpo", summary := "corpo", title := "corpo",
            published_at := Option.none, metadata := [("normalized_at", "t0")] } ∧
      c1Item.title = Option.none ∧
      ("corpo" : String) ≠ "Sem título" ∧
      buildArticle c1C c1Item "https://e.x/a" [] =
        .error (.other "TypeError: ArticleInput() got an unexpected keyword argument") :=
  ⟨by decide, by decide, by decide, by decide⟩

/-- Python `str.isspace` characters relevant to `str.split()` and
`str.strip()` (ASCII whitespace; the selector and markup inputs considered
here contain no exotic Unicode spaces). -/
def pyIsSpace (c : Char) : Bool :=
  c = ' ' || c = '\t' || c = '\n' || c = '\r' || c = '\x0b' || c = '\x0c'

/-- Python `str.strip()`. -/
def pyStrip (s : String) : String :=
  String.mk (((s.data.dropWhile pyIsSpace).reverse.dropWhile pyIsSpace).reverse)

/-- Helper for `str.split()`: accumulate the current word (reversed). -/
def pySplitWsAux : List Char → List Char → List String
  | [], acc => if acc.isEmpty then [] else [String.mk acc.reverse]
  | c :: rest, acc =>
    if pyIsSpace c then
      if acc.isEmpty then pySplitWsAux rest []
      else String.mk acc.reverse :: pySplitWsAux rest []
    else pySplitWsAux rest (c :: acc)

/-- Python `str.split()` with no separator: split on whitespace runs,
dropping empty pieces. -/
def pySplitWs (s : String) : List String := pySplitWsAux s.data []

/-- One compound filter (`_Selector`): optional tag, required class
tokens, optional id. -/
structure Sel where
  tag : Option String
  classes : List String
  element_id : Option String
deriving DecidableEq

/-- Tag name and attribute mapping of a node, as the matching functions
see it; the parent back-reference of the source is modelled by passing
the chain of ancestor frames (nearest first) wherever the code walks
`.parent`. -/
structure Frame where
  tag : String
  attrs : List (String × String)
deriving DecidableEq

theorem dropWhile_length_le (p : α → Bool) (l : List α) :
    (l.dropWhile p).length ≤ l.length := by
  induction l with
  | nil => simp [List.dropWhile]
  | cons a rest ih =>
    by_cases h : p a
    · simp only [List.dropWhile_cons, h, if_true, List.length_cons]
      omega
    · simp [List.dropWhile_cons, h]

/-- Embedding of `_parse_selector`: scan the token for `.`-prefixed class
tokens and a `#`-prefixed id, any remaining leading run being the tag.
The scanner consumes at least one character per iteration; the fuel
argument (instantiated with the token length) only makes that termination
structural. -/
def parseSelectorAux (fuel : Nat) : List Char → Option String → List String → Option String → Sel
  | cs, tag, classes, eid =>
    match fuel with
    | 0 => ⟨(match tag with | some "" => Option.none | t => t), classes, eid⟩
    | fuel2 + 1 =>
      match cs with
      | [] => ⟨(match tag with | some "" => Option.none | t => t), classes, eid⟩
      | c :: rest =>
        if c = '.' || c = '#' then
          let tok := rest.takeWhile (fun d => d ≠ '.' && d ≠ '#')
          let rest2 := rest.dropWhile (fun d => d ≠ '.' && d ≠ '#')
          if tok.isEmpty then parseSelectorAux fuel2 rest2 tag classes eid
          else if c = '.' then parseSelectorAux fuel2 rest2 tag (classes ++ [String.mk tok]) eid
          else parseSelectorAux fuel2 rest2 tag classes (some (String.mk tok))
        else
          let rest2 := rest.dropWhile (fun d => d ≠ '.' && d ≠ '#')
          let tok := c :: rest.takeWhile (fun d => d ≠ '.' && d ≠ '#')
          parseSelectorAux fuel2 rest2 (some (String.mk tok)) classes eid

/-- Parse one whitespace-separated selector token into a compound
filter. -/
def parseSelector (s : String) : Sel :=
  parseSelectorAux (pyStrip s).data.length (pyStrip s).data Option.none [] Option.none

/-- ASCII case folding (`str.lower()`; tag names and selector tokens here
are ASCII). -/
def pyLowerChar (c : Char) : Char :=
  if 'A' ≤ c && c ≤ 'Z' then Char.ofNat (c.toNat + 32) else c

/-- Python `str.lower()` on a whole string. -/
def pyLower (s : String) : String := String.mk (s.data.map pyLowerChar)

/-- Embedding of `_matches_simple`: tag equality (case-insensitive, only
when a non-empty tag is required), exact id equality against the `id`
attribute, and inclusion of all required class tokens in the
whitespace-split `class` attribute value. -/
def matchesSimple (f : Frame) (s : Sel) : Bool :=
  (match s.tag with
   | some t => t = "" || pyLower f.tag = pyLower t
   | Option.none => true) &&
  (match s.element_id with
   | some eid => eid = "" || dictGet "id" f.attrs = some eid
   | Option.none => true) &&
  (s.classes.isEmpty ||
    (let ncls := pySplitWs ((dictGet "class" f.attrs).getD "")
     s.classes.all (fun c => ncls.contains c)))

/-- Walk upward (nearest first) until the sentinel, looking for a frame
satisfying the filter; returns the chain strictly above the first match. -/
def findUp (s : Sel) : List Frame → Option (List Frame)
  | [] => Option.none
  | f :: fs =>
    if f.tag = "__root__" then Option.none
    else if matchesSimple f s then some fs
    else findUp s fs

/-- Greedy ancestor matching of the reversed earlier filters, as the loop
of `_matches_selector` performs it. -/
def matchChainRevAux : List Sel → List Frame → Bool
  | [], _ => true
  | s :: rest, frames =>
    match findUp s frames with
    | some frames2 => matchChainRevAux rest frames2
    | Option.none => false

/-- Embedding of `_matches_selector` for a node frame and its ancestor
chain. -/
def matchesSelector (parts : List Sel) (f : Frame) (anc : List Frame) : Bool :=
  match parts.reverse with
  | [] => true
  | last :: restRev =>
    if f.tag = "__root__" then false
    else if matchesSimple f last then matchChainRevAux restRev anc
    else false

/-- Node of the in-memory markup tree: an element (tag, attribute mapping,
ordered children) or a text run. -/
inductive HNode where
  | elem (tag : String) (attrs : List (String × String)) (children : List HNode)
  | text (s : String)

/-- The matching-relevant frame of a node. -/
def frameOf : HNode → Frame
  | .elem t a _ => ⟨t, a⟩
  | .text _ => ⟨"", []⟩

mutual

/-- Pre-order visit of a child node with its ancestor frames, as
`iter_descendants(include_self=True)` yields it: the node itself unless it
is the root sentinel, then its element descendants. -/
def descsNode (anc : List Frame) : HNode → List (HNode × List Frame)
  | .text _ => []
  | .elem t a cs =>
    (if t = "__root__" then [] else [(.elem t a cs, anc)]) ++ descsList (⟨t, a⟩ :: anc) cs

/-- Pre-order visit of a children list. -/
def descsList (anc : List Frame) : List HNode → List (HNode × List Frame)
  | [] => []
  | c :: rest => descsNode anc c ++ descsList anc rest

end

/-- Document-order descendants of a node (itself excluded), with their
ancestor chains, as `select` iterates them. -/
def preorderDescs (n : HNode) (anc : List Frame) : List (HNode × List Frame) :=
  match n with
  | .text _ => []
  | .elem t a cs => descsList (⟨t, a⟩ :: anc) cs

/-- Embedding of `HTMLNode.select` keeping each selected node's ancestor
chain (the parent back-references of the selected Python node objects). -/
def selectPairs (n : HNode) (anc : List Frame) (selector : String) :
    List (HNode × List Frame) :=
  let parts := (pySplitWs selector).map parseSelector
  if parts.isEmpty then []
  else (preorderDescs n anc).filter (fun p => matchesSelector parts (frameOf p.1) p.2)

/-- Embedding of `HTMLNode.select`: parse the whitespace-separated
compound filters and keep, in document order, the descendants accepted by
`_matches_selector`. -/
def selectCtx (n : HNode) (anc : List Frame) (selector : String) : List HNode :=
  (selectPairs n anc selector).map Prod.fst

/-- Embedding of `HTMLNode.select_one`: first selected node or None. -/
def selectOneCtx (n : HNode) (anc : List Frame) (selector : String) : Option HNode :=
  (selectCtx n anc selector).head?

/-- Ancestors visible to the upward walk: the chain up to (excluding) the
root sentinel. -/
def effAncestors (frames : List Frame) : List Frame :=
  frames.takeWhile (fun f => f.tag ≠ "__root__")

/-- Declarative ancestor-chain satisfaction, as the claim words it: each
filter (nearest-filter first) is satisfied by some ancestor, and the
remaining filters by strictly higher ancestors. -/
def chainSat : List Sel → List Frame → Bool
  | [], _ => true
  | s :: rest, frames =>
    (List.range frames.length).any (fun i =>
      (match frames[i]? with
       | some f => matchesSimple f s
       | Option.none => false) && chainSat rest (frames.drop (i + 1)))

/-- Declarative matching, as the claim words it: the node satisfies the
last compound filter and each earlier filter is satisfied by some strictly
higher ancestor below the root sentinel. -/
def specMatches (parts : List Sel) (f : Frame) (anc : List Frame) : Bool :=
  match parts.reverse with
  | [] => true
  | last :: earlier =>
    f.tag ≠ "__root__" && matchesSimple f last && chainSat earlier (effAncestors anc)

theorem chainSat_cons_eq (s : Sel) (rest : List Sel) (f : Frame) (l : List Frame) :
    chainSat (s :: rest) (f :: l) =
      ((matchesSimple f s && chainSat rest l) || chainSat (s :: rest) l) := by
  show (List.range (l.length + 1)).any _ = _
  rw [List.range_succ_eq_map, List.any_cons, List.any_map]
  congr 1
  · simp
  · show _ = (List.range l.length).any _
    congr 1
    funext i
    simp [Function.comp, List.getElem?_cons_succ, List.drop_succ_cons]

theorem chainSat_drop_mono (sels : List Sel) (l : List Frame) (k : Nat)
    (h : chainSat sels (l.drop k) = true) : chainSat sels l = true := by
  cases sels with
  | nil => rfl
  | cons s rest =>
    rw [chainSat, List.any_eq_true] at h ⊢
    obtain ⟨i, hi, hp⟩ := h
    rw [List.mem_range] at hi
    have hlen : (l.drop k).length = l.length - k := by simp
    refine ⟨k + i, ?_, ?_⟩
    · rw [List.mem_range]
      omega
    · have h1 : (l.drop k)[i]? = l[k + i]? := List.getElem?_drop l k i
      have h2 : l.drop (k + i + 1) = (l.drop k).drop (i + 1) := by
        rw [List.drop_drop]
        have hkk : k + i + 1 = k + (i + 1) := by omega
        rw [hkk]
      rw [← h1, h2]
      exact hp

theorem greedy_eq_exists (sels : List Sel) :
    ∀ frames, matchChainRevAux sels frames = chainSat sels (effAncestors frames) := by
  induction sels with
  | nil => intro frames; rfl
  | cons s rest ihs =>
    intro frames
    induction frames with
    | nil => rfl
    | cons f fs ihf =>
      by_cases hroot : f.tag = "__root__"
      · have hlhs : matchChainRevAux (s :: rest) (f :: fs) = false := by
          simp [matchChainRevAux, findUp, hroot]
        have heff : effAncestors (f :: fs) = [] := by
          simp [effAncestors, List.takeWhile_cons, hroot]
        rw [hlhs, heff]
        rfl
      · have heff : effAncestors (f :: fs) = f :: effAncestors fs := by
          simp [effAncestors, List.takeWhile_cons, hroot]
        rw [heff, chainSat_cons_eq]
        by_cases hm : matchesSimple f s
        · have hlhs : matchChainRevAux (s :: rest) (f :: fs) = matchChainRevAux rest fs := by
            simp [matchChainRevAux, findUp, hroot, hm]
          rw [hlhs, ihs fs, hm, Bool.true_and]
          cases hcs : chainSat (s :: rest) (effAncestors fs) with
          | false => simp
          | true =>
            have : chainSat rest (effAncestors fs) = true := by
              rw [chainSat, List.any_eq_true] at hcs
              obtain ⟨i, _, hp⟩ := hcs
              rw [Bool.and_eq_true] at hp
              exact chainSat_drop_mono rest (effAncestors fs) (i + 1) hp.2
            simp [this]
        · have hlhs : matchChainRevAux (s :: rest) (f :: fs) =
              matchChainRevAux (s :: rest) fs := by
            simp [matchChainRevAux, findUp, hroot, hm]
          have hm2 : matchesSimple f s = false := by
            simp only [Bool.not_eq_true] at hm
            exact hm
          rw [hlhs, ihf, hm2]
          simp

theorem matchesSelector_eq_specMatches (parts : List Sel) (f : Frame) (anc : List Frame) :
    matchesSelector parts f anc = specMatches parts f anc := by
  unfold matchesSelector specMatches
  cases hrev : parts.reverse with
  | nil => rfl
  | cons last restRev =>
    by_cases hroot : f.tag = "__root__"
    · simp [hroot]
    · by_cases hm : matchesSimple f last
      · simp [hroot, hm, greedy_eq_exists]
      · simp [hroot, hm]

/-- C6: `select` returns, in document order (pre-order traversal of
descendants, the root sentinel excluded), exactly the nodes satisfying
the last compound filter whose earlier filters are each satisfied by some
strictly higher ancestor below the root sentinel; `select_one` returns
the first such node or None. -/
theorem select_spec_C6 (n : HNode) (anc : List Frame) (selector : String)
    (hne : pySplitWs selector ≠ []) :
    selectCtx n anc selector =
      ((preorderDescs n anc).filter
        (fun p => specMatches ((pySplitWs selector).map parseSelector) (frameOf p.1) p.2)).map
        Prod.fst ∧
      selectOneCtx n anc selector =
        (((preorderDescs n anc).filter
          (fun p => specMatches ((pySplitWs selector).map parseSelector) (frameOf p.1) p.2)).map
          Prod.fst).head? := by
  have hparts : ((pySplitWs selector).map parseSelector).isEmpty = false := by
    cases h : pySplitWs selector with
    | nil => exact absurd h hne
    | cons a l => simp [h]
  have hsel : selectCtx n anc selector =
      ((preorderDescs n anc).filter
        (fun p => specMatches ((pySplitWs selector).map parseSelector) (frameOf p.1) p.2)).map
        Prod.fst := by
    rw [selectCtx, selectPairs]
    simp only [hparts, Bool.false_eq_true, if_false]
    congr 1
    apply List.filter_congr
    intro p _
    exact matchesSelector_eq_specMatches _ _ _
  exact ⟨hsel, by rw [selectOneCtx, hsel]⟩

/-- Attribute-value escaping (`html.escape(value, quote=True)`). -/
def escChar (c : Char) : List Char :=
  if c = '&' then "&amp;".data
  else if c = '<' then "&lt;".data
  else if c = '>' then "&gt;".data
  else if c = '"' then "&quot;".data
  else if c = '\'' then "&#x27;".data
  else [c]

/-- Escape a full attribute value. -/
def escapeAttr (s : String) : String := String.mk (s.data.flatMap escChar)

/-- Rendering of an attribute mapping (`_node_to_html`). -/
def attrsToHtml (a : List (String × String)) : String :=
  a.foldl (fun acc kv => acc ++ " " ++ kv.1 ++ "=\"" ++ escapeAttr kv.2 ++ "\"") ""

mutual

/-- Embedding of `_node_to_html` (elements) and raw text runs: every
element renders with explicit open and close tags, children in order. -/
def nodeToHtml : HNode → String
  | .text s => s
  | .elem t a cs => "<" ++ t ++ attrsToHtml a ++ ">" ++ childrenToHtml cs ++ "</" ++ t ++ ">"

/-- Embedding of `_node_children_to_html`. -/
def childrenToHtml : List HNode → String
  | [] => ""
  | c :: rest => nodeToHtml c ++ childrenToHtml rest

end

/-- Rendering of a whole document (`str(HTMLDocument)`): the root
sentinel's children only. -/
def documentToHtml : HNode → String
  | .elem _ _ cs => childrenToHtml cs
  | .text s => s

mutual

/-- The text runs under a node in order (`_collect_text`). -/
def collectTextNode : HNode → List String
  | .text s => [s]
  | .elem _ _ cs => collectTextList cs

/-- The text runs under a children list in order. -/
def collectTextList : List HNode → List String
  | [] => []
  | c :: rest => collectTextNode c ++ collectTextList rest

end

/-- Embedding of `HTMLNode.get_text(separator, strip)`. -/
def getTextOf (n : HNode) (sep : String) (strip : Bool) : String :=
  let t := pyJoin sep (collectTextNode n)
  if strip then pyStrip t else t

/-- The spec §8 example tree
`<ul><li class="item"><a href="/x">T</a></li></ul>` under the root
sentinel. -/
def c6Doc : HNode :=
  .elem "__root__" []
    [.elem "ul" []
      [.elem "li" [("class", "item")]
        [.elem "a" [("href", "/x")] [.text "T"]]]]

/-- Witness for C6: on the spec §8 tree, the characterization applies to
`li.item a` and the single selected node is the anchor. -/
theorem select_spec_C6_witness :
    pySplitWs "li.item a" ≠ [] ∧
      (selectCtx c6Doc [] "li.item a" =
        ((preorderDescs c6Doc []).filter
          (fun p => specMatches ((pySplitWs "li.item a").map parseSelector)
            (frameOf p.1) p.2)).map Prod.fst ∧
        selectOneCtx c6Doc [] "li.item a" =
          (((preorderDescs c6Doc []).filter
            (fun p => specMatches ((pySplitWs "li.item a").map parseSelector)
              (frameOf p.1) p.2)).map Prod.fst).head?) ∧
      (selectCtx c6Doc [] "li.item a").map nodeToHtml = ["<a href=\"/x\">T</a>"] ∧
      (selectOneCtx c6Doc [] "li.item a").map nodeToHtml = some "<a href=\"/x\">T</a>" :=
  ⟨by decide, select_spec_C6 c6Doc [] "li.item a" (by decide), by decide, by decide⟩

/-- Tokens produced by the markup tokenizer (the behaviour of Python's
`html.parser.HTMLParser` with `convert_charrefs=True`, which
`_TreeBuilder` subscribes to): start tags with decoded attribute values,
end tags, and text data with character/entity references already decoded
(so the verbatim-preserving `handle_entityref`/`handle_charref` overrides
of `_TreeBuilder` never fire). -/
inductive Tok where
  | startTag (tag : String) (attrs : List (String × String)) (selfClosing : Bool)
  | endTag (tag : String)
  | dataTok (s : String)

/-- Characters ending a tag or attribute name. -/
def isNameBreak (c : Char) : Bool := pyIsSpace c || c = '/' || c = '>' || c = '='

/-- Named character references resolved here (the subset of the HTML5
table exercised by the inputs considered). -/
def entityVal : String → Option Char
  | "amp" => some '&'
  | "lt" => some '<'
  | "gt" => some '>'
  | "quot" => some '"'
  | "apos" => some '\''
  | _ => Option.none

/-- Parse one character reference right after a `&`; returns the decoded
character and the remaining input, or None to leave the `&` literal. -/
def parseCharref (cs : List Char) : Option (Char × List Char) :=
  match cs with
  | '#' :: rest =>
    match rest with
    | 'x' :: rest2 =>
      let digits := rest2.takeWhile (fun c => c.isDigit || ('a' ≤ c && c ≤ 'f') || ('A' ≤ c && c ≤ 'F'))
      let rest3 := rest2.dropWhile (fun c => c.isDigit || ('a' ≤ c && c ≤ 'f') || ('A' ≤ c && c ≤ 'F'))
      if digits.isEmpty then Option.none
      else
        let v := digits.foldl (fun acc c =>
          16 * acc + (if c.isDigit then c.toNat - 48
                      else if 'a' ≤ c && c ≤ 'f' then c.toNat - 87
                      else c.toNat - 55)) 0
        some (Char.ofNat v, match rest3 with | ';' :: r => r | r => r)
    | _ =>
      let digits := rest.takeWhile Char.isDigit
      let rest2 := rest.dropWhile Char.isDigit
      if digits.isEmpty then Option.none
      else
        let v := digits.foldl (fun acc c => 10 * acc + (c.toNat - 48)) 0
        some (Char.ofNat v, match rest2 with | ';' :: r => r | r => r)
  | _ =>
    let name := cs.takeWhile Char.isAlpha
    let rest := cs.dropWhile Char.isAlpha
    match rest with
    | ';' :: rest2 =>
      match entityVal (String.mk name) with
      | some c => some (c, rest2)
      | Option.none => Option.none
    | _ => Option.none

/-- Decode character references inside a text run or attribute value. -/
def decodeEnt (fuel : Nat) (cs : List Char) : List Char :=
  match fuel with
  | 0 => cs
  | fuel2 + 1 =>
    match cs with
    | [] => []
    | '&' :: rest =>
      match parseCharref rest with
      | some (c, rest2) => c :: decodeEnt fuel2 rest2
      | Option.none => '&' :: decodeEnt fuel2 rest
    | c :: rest => c :: decodeEnt fuel2 rest

/-- Parse the attribute list of a start tag up to the closing `>`;
attribute names are lowercased, values entity-decoded, a bare name gets
value ""; returns the attributes in order, the self-closing flag, and the
remaining input. -/
def parseAttrs (fuel : Nat) (cs : List Char) : List (String × String) × Bool × List Char :=
  match fuel with
  | 0 => ([], false, cs)
  | fuel2 + 1 =>
    let cs := cs.dropWhile pyIsSpace
    match cs with
    | [] => ([], false, [])
    | '>' :: rest => ([], false, rest)
    | '/' :: '>' :: rest => ([], true, rest)
    | '/' :: rest =>
      let (attrs, sc, rest2) := parseAttrs fuel2 rest
      (attrs, sc, rest2)
    | _ =>
      let name := cs.takeWhile (fun c => !(isNameBreak c))
      let cs2 := (cs.dropWhile (fun c => !(isNameBreak c))).dropWhile pyIsSpace
      match cs2 with
      | '=' :: afterEq =>
        let afterEq := afterEq.dropWhile pyIsSpace
        match afterEq with
        | '"' :: vrest =>
          let v := vrest.takeWhile (fun c => c ≠ '"')
          let rest2 := (vrest.dropWhile (fun c => c ≠ '"')).drop 1
          let (attrs, sc, rest3) := parseAttrs fuel2 rest2
          ((String.mk (pyLowerChar <$> name), String.mk (decodeEnt v.length v)) :: attrs, sc, rest3)
        | '\'' :: vrest =>
          let v := vrest.takeWhile (fun c => c ≠ '\'')
          let rest2 := (vrest.dropWhile (fun c => c ≠ '\'')).drop 1
          let (attrs, sc, rest3) := parseAttrs fuel2 rest2
          ((String.mk (pyLowerChar <$> name), String.mk (decodeEnt v.length v)) :: attrs, sc, rest3)
        | _ =>
          let v := afterEq.takeWhile (fun c => !(pyIsSpace c) && c ≠ '>')
          let rest2 := afterEq.dropWhile (fun c => !(pyIsSpace c) && c ≠ '>')
          let (attrs, sc, rest3) := parseAttrs fuel2 rest2
          ((String.mk (pyLowerChar <$> name), String.mk (decodeEnt v.length v)) :: attrs, sc, rest3)
      | _ =>
        if name.isEmpty then
          let (attrs, sc, rest3) := parseAttrs fuel2 (cs.drop 1)
          (attrs, sc, rest3)
        else
          let (attrs, sc, rest3) := parseAttrs fuel2 cs2
          ((String.mk (pyLowerChar <$> name), "") :: attrs, sc, rest3)

/-- Skip past the terminating `-->` of a comment. -/
def skipToCommentEnd (fuel : Nat) (cs : List Char) : List Char :=
  match fuel with
  | 0 => cs
  | fuel2 + 1 =>
    match cs with
    | [] => []
    | '-' :: '-' :: '>' :: rest => rest
    | _ :: rest => skipToCommentEnd fuel2 rest

/-- Tokenizer for the markup constructs exercised here (tags with
attributes, end tags, comments and declarations skipped, raw text inside
`script`/`style` elements, character references decoded elsewhere),
modelling `html.parser` with `convert_charrefs=True`.  `cdata` holds the
enclosing raw-text element while inside one. -/
def tokenize (fuel : Nat) (cs : List Char) (cdata : Option String) : List Tok :=
  match fuel with
  | 0 => []
  | fuel2 + 1 =>
    match cdata with
    | some t =>
      match cs with
      | [] => []
      | '<' :: '/' :: rest =>
        let name := rest.takeWhile Char.isAlpha
        let rest2 := (rest.dropWhile Char.isAlpha).dropWhile pyIsSpace
        if String.mk (pyLowerChar <$> name) = t then
          match rest2 with
          | '>' :: rest3 => .endTag t :: tokenize fuel2 rest3 Option.none
          | _ =>
            let raw := ('<' :: '/' :: rest).takeWhile (fun c => c ≠ '>')
            .dataTok (String.mk raw) :: tokenize fuel2 (('<' :: '/' :: rest).dropWhile (fun c => c ≠ '>')) (some t)
        else
          let raw := ('<' :: '/' :: rest).take 2
          .dataTok (String.mk raw) :: tokenize fuel2 rest (some t)
      | _ =>
        let raw := cs.takeWhile (fun c => c ≠ '<')
        let rest := cs.dropWhile (fun c => c ≠ '<')
        if raw.isEmpty then
          .dataTok "<" :: tokenize fuel2 (cs.drop 1) (some t)
        else
          .dataTok (String.mk raw) :: tokenize fuel2 rest (some t)
    | Option.none =>
      match cs with
      | [] => []
      | '<' :: '!' :: '-' :: '-' :: rest =>
        let rest2 := skipToCommentEnd rest.length rest
        tokenize fuel2 rest2 Option.none
      | '<' :: '!' :: rest =>
        tokenize fuel2 ((rest.dropWhile (fun c => c ≠ '>')).drop 1) Option.none
      | '<' :: '/' :: rest =>
        let name := rest.takeWhile Char.isAlpha
        let rest2 := ((rest.dropWhile (fun c => c ≠ '>')).drop 1)
        if name.isEmpty then tokenize fuel2 rest2 Option.none
        else .endTag (String.mk (pyLowerChar <$> name)) :: tokenize fuel2 rest2 Option.none
      | '<' :: c :: rest =>
        if c.isAlpha then
          let name := (c :: rest).takeWhile (fun d => !(isNameBreak d))
          let afterName := (c :: rest).dropWhile (fun d => !(isNameBreak d))
          let (attrs, sc, rest2) := parseAttrs afterName.length afterName
          let tag := String.mk (pyLowerChar <$> name)
          let tok := Tok.startTag tag (attrs.foldl (fun acc kv => dictInsert kv.1 kv.2 acc) []) sc
          if !sc && (tag = "script" || tag = "style") then
            tok :: tokenize fuel2 rest2 (some tag)
          else
            tok :: tokenize fuel2 rest2 Option.none
        else
          .dataTok "<" :: tokenize fuel2 (c :: rest) Option.none
      | _ =>
        let raw := cs.takeWhile (fun c => c ≠ '<')
        let rest := cs.dropWhile (fun c => c ≠ '<')
        .dataTok (String.mk (decodeEnt raw.length raw)) :: tokenize fuel2 rest Option.none

/-- One open element of the builder stack: tag, attributes and the
children accumulated so far.  The Python builder attaches a node to its
parent when the open tag arrives and mutates it in place; since the
parent receives no other child while this node is open, attaching the
completed node when it leaves the stack builds the identical tree. -/
structure BFrame where
  tag : String
  attrs : List (String × String)
  children : List HNode

/-- Fold the top stack frame into the frame below it (the completed node
becomes the next child). -/
def popFrame : List BFrame → List BFrame
  | f :: g :: rest => { g with children := g.children ++ [.elem f.tag f.attrs f.children] } :: rest
  | l => l

/-- Pop `n` frames. -/
def popFrames : Nat → List BFrame → List BFrame
  | 0, l => l
  | n + 1, l => popFrames n (popFrame l)

/-- Embedding of `_TreeBuilder.handle_endtag`: search the stack from the
top for a matching tag (the root excluded) and truncate the stack down to
and including it; unmatched close tags are ignored. -/
def handleEnd (stack : List BFrame) (t : String) : List BFrame :=
  match stack.dropLast.findIdx? (fun f => f.tag = t) with
  | some i => popFrames (i + 1) stack
  | Option.none => stack

/-- Process one token against the open-element stack (top at the head):
`handle_starttag` pushes, a self-closing tag opens and closes at once,
`handle_endtag` truncates, `handle_data` appends a non-empty text run to
the stack top. -/
def buildStep (stack : List BFrame) : Tok → List BFrame
  | .startTag t a sc =>
    if sc then
      match stack with
      | top :: rest => { top with children := top.children ++ [.elem t a []] } :: rest
      | [] => []
    else
      ⟨t, a, []⟩ :: stack
  | .endTag t => handleEnd stack t
  | .dataTok s =>
    if s = "" then stack
    else
      match stack with
      | top :: rest => { top with children := top.children ++ [.text s] } :: rest
      | [] => []

/-- Embedding of `HTMLDocument.from_html`: tokenize (with
`convert_charrefs=True`), run the stack machine from a root sentinel, and
close every element still open at end of input. -/
def parseHtml (html : String) : HNode :=
  let toks := tokenize (html.data.length + 1) html.data Option.none
  let stack := toks.foldl buildStep [⟨"__root__", [], []⟩]
  match popFrames stack.length stack with
  | [root] => .elem root.tag root.attrs root.children
  | _ => .elem "__root__" [] []

/-- C8 failing input: `_TreeBuilder` passes `convert_charrefs=True` to
`html.parser`, so character and entity references are decoded into the
text runs (the verbatim-preserving `handle_entityref`/`handle_charref`
overrides are dead code) and serializing does not re-escape them: the
round trip through parse and render loses the references. -/
theorem charrefs_decoded_C8 :
    documentToHtml (parseHtml "<p>a &amp; b</p>") = "<p>a & b</p>" ∧
      documentToHtml (parseHtml "<p>a &#38; b</p>") = "<p>a & b</p>" ∧
      documentToHtml (parseHtml "<p>a &amp; b</p>") ≠ "<p>a &amp; b</p>" :=
  ⟨by decide, by decide, by decide⟩

/-- Metadata values stored by the listing extractor: strings (titles,
summaries, attribute values) or tuples of strings (an `all` selector). -/
inductive MetaV where
  | str (s : String)
  | list (xs : List String)
deriving DecidableEq

/-- Raw listing item record (`RawListingItem`): href, outer markup of the
entry element, metadata mapping. -/
structure RawListingItem where
  url : String
  content : String
  metadata : List (String × MetaV)
deriving DecidableEq

/-- One normalized metadata-selector options record
(`{selector, attr?, all?}`; a plain string is normalized to
`{selector}`). -/
structure MetaSel where
  selector : String := ""
  attr : Option String := none
  allMatches : Bool := false
deriving DecidableEq

/-- Configuration of `SoupListingParser` (selectors; `link_selector` is
`None` here for any falsy configured value). -/
structure ListingCfg where
  item_selector : String
  link_selector : Option String := some "a"
  url_attribute : String := "href"
  title_selector : Option String := none
  summary_selector : Option String := none
  metadata_selectors : List (String × MetaSel) := []

/-- The attribute mapping of a node. -/
def attrsOf : HNode → List (String × String)
  | .elem _ a _ => a
  | .text _ => []

/-- Embedding of `SoupListingParser._extract_metadata`. -/
def extractMetadataVal (o : MetaSel) (element : HNode) (anc : List Frame) : Option MetaV :=
  let selector := pyStrip o.selector
  if selector = "" then Option.none
  else
    let nodes :=
      if o.allMatches then selectCtx element anc selector
      else
        match selectOneCtx element anc selector with
        | some n => [n]
        | Option.none => []
    if nodes.isEmpty then Option.none
    else
      let values : List (Option String) := nodes.map (fun n =>
        match o.attr with
        | some a =>
          if a = "html" then some (nodeToHtml n)
          else if a = "" then some (getTextOf n " " true)
          else dictGet a (attrsOf n)
        | Option.none => some (getTextOf n " " true))
      if o.allMatches then some (.list (values.filterMap id))
      else
        match values.filterMap id with
        | [] => Option.none
        | v :: _ => some (.str v)

/-- The link element of an entry: the first match of the link selector,
or the entry element itself when no link selector is configured (a falsy
configured value). -/
def linkElemOf (cfg : ListingCfg) (element : HNode) (anc : List Frame) : Option HNode :=
  match cfg.link_selector with
  | some ls => selectOneCtx element anc ls
  | Option.none => some element

/-- Record the link text as `title` unless a title is already present
(`if link_text and "title" not in metadata`). -/
def applyLinkTitle (linkElem : Option HNode) (m : List (String × MetaV)) :
    List (String × MetaV) :=
  match linkElem with
  | some le =>
    if getTextOf le " " true ≠ "" && (dictGet "title" m).isNone then
      dictInsert "title" (.str (getTextOf le " " true)) m
    else m
  | Option.none => m

/-- Setdefault the configured title-selector text (it never overrides). -/
def applyTitleSelector (cfg : ListingCfg) (element : HNode) (anc : List Frame)
    (m : List (String × MetaV)) : List (String × MetaV) :=
  match cfg.title_selector with
  | some ts =>
    match selectOneCtx element anc ts with
    | some tn =>
      if getTextOf tn " " true ≠ "" then
        dictSetdefault "title" (.str (getTextOf tn " " true)) m
      else m
    | Option.none => m
  | Option.none => m

/-- Setdefault the summary markup and text from the summary selector. -/
def applySummary (cfg : ListingCfg) (element : HNode) (anc : List Frame)
    (m : List (String × MetaV)) : List (String × MetaV) :=
  match cfg.summary_selector with
  | some ss =>
    match selectOneCtx element anc ss with
    | some sn =>
      dictSetdefault "summary_text" (.str (getTextOf sn " " true))
        (dictSetdefault "summary_html" (.str (nodeToHtml sn)) m)
    | Option.none => m
  | Option.none => m

/-- One metadata-selector application: a produced value overrides its
key. -/
def metaStep (element : HNode) (anc : List Frame) (acc : List (String × MetaV))
    (kv : String × MetaSel) : List (String × MetaV) :=
  match extractMetadataVal kv.2 element anc with
  | some v => dictInsert kv.1 v acc
  | Option.none => acc

/-- Apply every configured metadata selector in order. -/
def applyMetaSelectors (sels : List (String × MetaSel)) (element : HNode)
    (anc : List Frame) (m : List (String × MetaV)) : List (String × MetaV) :=
  sels.foldl (metaStep element anc) m

/-- The per-entry body of `SoupListingParser.extract`: resolve the link
element and its URL attribute (entries without one are skipped), then
build the metadata mapping in source order: the link text becomes `title`
unless one is already present, the title-selector text is only
`setdefault`-ed, the summary selector fills `summary_html`/`summary_text`
by `setdefault`, and every configured metadata selector overrides its
key. -/
def listingExtractEntry (cfg : ListingCfg) (pageMeta : List (String × MetaV))
    (element : HNode) (anc : List Frame) : Option RawListingItem :=
  let linkElem := linkElemOf cfg element anc
  let href := pyStrip (match linkElem with
    | some le => (dictGet cfg.url_attribute (attrsOf le)).getD ""
    | Option.none => "")
  if href = "" then Option.none
  else
    some { url := href, content := nodeToHtml element,
           metadata := applyMetaSelectors cfg.metadata_selectors element anc
             (applySummary cfg element anc
               (applyTitleSelector cfg element anc
                 (applyLinkTitle linkElem pageMeta))) }

/-- Embedding of `SoupListingParser.extract`: parse, select the entry
elements, and extract each resolvable entry in document order. -/
def listingExtract (cfg : ListingCfg) (html : String)
    (pageMeta : List (String × MetaV)) : List RawListingItem :=
  (selectPairs (parseHtml html) [] cfg.item_selector).filterMap
    (fun p => listingExtractEntry cfg pageMeta p.1 p.2)

theorem dictGet_insert_self (k : String) (v : α) (m : List (String × α)) :
    dictGet k (dictInsert k v m) = some v := by
  induction m with
  | nil => simp [dictInsert, dictGet]
  | cons kv rest ih =>
    by_cases h : kv.1 = k
    · simp [dictInsert, dictGet, h]
    · simp [dictInsert, dictGet, h, ih]

theorem dictGet_insert_ne (k k2 : String) (hne : k ≠ k2) (v : α) (m : List (String × α)) :
    dictGet k (dictInsert k2 v m) = dictGet k m := by
  have hne2 : ¬ (k2 = k) := fun h => hne h.symm
  induction m with
  | nil => simp [dictInsert, dictGet, hne2]
  | cons kv rest ih =>
    by_cases h : kv.1 = k2
    · simp [dictInsert, dictGet, h, hne2]
    · simp only [dictInsert, h, if_false]
      by_cases hk : kv.1 = k
      · simp [dictGet, hk]
      · simp [dictGet, hk, ih]

theorem dictSetdefault_of_get (k : String) (v w : α) (m : List (String × α))
    (h : dictGet k m = some v) : dictSetdefault k w m = m := by
  unfold dictSetdefault
  rw [h]

theorem dictGet_append (k : String) (m1 m2 : List (String × α)) :
    dictGet k (m1 ++ m2) = match dictGet k m1 with
      | some v => some v
      | Option.none => dictGet k m2 := by
  induction m1 with
  | nil => simp [dictGet]
  | cons kv rest ih =>
    by_cases h : kv.1 = k
    · simp [dictGet, h]
    · simp [dictGet, h, ih]

theorem dictGet_setdefault_ne (k k2 : String) (hne : k ≠ k2) (v : α)
    (m : List (String × α)) : dictGet k (dictSetdefault k2 v m) = dictGet k m := by
  unfold dictSetdefault
  cases h : dictGet k2 m with
  | some w => rfl
  | none =>
    rw [dictGet_append]
    have hne2 : ¬ (k2 = k) := fun h => hne h.symm
    cases hk : dictGet k m with
    | some w => rfl
    | none => simp [dictGet, hne2]

theorem applyLinkTitle_get (le : HNode) (m : List (String × MetaV))
    (hlt : getTextOf le " " true ≠ "") (hnot : dictGet "title" m = Option.none) :
    dictGet "title" (applyLinkTitle (some le) m) =
      some (.str (getTextOf le " " true)) := by
  simp only [applyLinkTitle]
  rw [if_pos (by simp [hlt, hnot])]
  exact dictGet_insert_self _ _ _

theorem applyTitleSelector_get (cfg : ListingCfg) (element : HNode) (anc : List Frame)
    (m : List (String × MetaV)) (v : MetaV) (h : dictGet "title" m = some v) :
    dictGet "title" (applyTitleSelector cfg element anc m) = some v := by
  cases hts : cfg.title_selector with
  | none => simp only [applyTitleSelector, hts]; exact h
  | some ts =>
    cases hsel : selectOneCtx element anc ts with
    | none => simp only [applyTitleSelector, hts, hsel]; exact h
    | some tn =>
      simp only [applyTitleSelector, hts, hsel]
      by_cases htt : getTextOf tn " " true = ""
      · rw [if_neg (by simp [htt])]
        exact h
      · rw [if_pos (by simp [htt])]
        rw [dictSetdefault_of_get "title" v _ m h]
        exact h

theorem applySummary_get_title (cfg : ListingCfg) (element : HNode) (anc : List Frame)
    (m : List (String × MetaV)) :
    dictGet "title" (applySummary cfg element anc m) = dictGet "title" m := by
  cases hss : cfg.summary_selector with
  | none => simp only [applySummary, hss]
  | some ss =>
    cases hsel : selectOneCtx element anc ss with
    | none => simp only [applySummary, hss, hsel]
    | some sn =>
      simp only [applySummary, hss, hsel]
      rw [dictGet_setdefault_ne "title" "summary_text" (by decide) _ _,
        dictGet_setdefault_ne "title" "summary_html" (by decide) _ _]

theorem applyMetaSelectors_get (k : String) (sels : List (String × MetaSel))
    (element : HNode) (anc : List Frame) (hk : ∀ kv ∈ sels, kv.1 ≠ k) :
    ∀ m, dictGet k (applyMetaSelectors sels element anc m) = dictGet k m := by
  induction sels with
  | nil => intro m; rfl
  | cons kv rest ih =>
    intro m
    have hkv : kv.1 ≠ k := hk kv (List.mem_cons_self _ _)
    have hrest : ∀ kv2 ∈ rest, kv2.1 ≠ k := fun kv2 h2 => hk kv2 (List.mem_cons_of_mem _ h2)
    show dictGet k (applyMetaSelectors rest element anc (metaStep element anc m kv)) = _
    rw [ih hrest]
    simp only [metaStep]
    cases hx : extractMetadataVal kv.2 element anc with
    | none => rfl
    | some v => exact dictGet_insert_ne k kv.1 (fun h => hkv h.symm) v m

/-- C9 (amended): in a listing entry the link text has the higher
precedence between the two text sources: whenever the link element
resolves with a non-empty URL attribute and non-empty text, and the
incoming page metadata carries no title, the recorded title is the link
text, whatever the configured title selector finds (its text is only
setdefault-ed); only a configured metadata selector under the key `title`
(or an inherited page-metadata title) can override the link text. -/
theorem link_text_wins_C9 (cfg : ListingCfg) (pageMeta : List (String × MetaV))
    (element : HNode) (anc : List Frame) (ls : String) (le : HNode)
    (hls : cfg.link_selector = some ls)
    (hle : selectOneCtx element anc ls = some le)
    (hhref : pyStrip ((dictGet cfg.url_attribute (attrsOf le)).getD "") ≠ "")
    (hlt : getTextOf le " " true ≠ "")
    (hnot : dictGet "title" pageMeta = Option.none)
    (hms : ∀ kv ∈ cfg.metadata_selectors, kv.1 ≠ "title") :
    listingExtractEntry cfg pageMeta element anc =
      some { url := pyStrip ((dictGet cfg.url_attribute (attrsOf le)).getD ""),
             content := nodeToHtml element,
             metadata := applyMetaSelectors cfg.metadata_selectors element anc
               (applySummary cfg element anc
                 (applyTitleSelector cfg element anc
                   (applyLinkTitle (some le) pageMeta))) } ∧
      dictGet "title" ((listingExtractEntry cfg pageMeta element anc).map
        RawListingItem.metadata |>.getD []) = some (.str (getTextOf le " " true)) := by
  have hlink : linkElemOf cfg element anc = some le := by
    unfold linkElemOf
    rw [hls]
    exact hle
  have heq : listingExtractEntry cfg pageMeta element anc =
      some { url := pyStrip ((dictGet cfg.url_attribute (attrsOf le)).getD ""),
             content := nodeToHtml element,
             metadata := applyMetaSelectors cfg.metadata_selectors element anc
               (applySummary cfg element anc
                 (applyTitleSelector cfg element anc
                   (applyLinkTitle (some le) pageMeta))) } := by
    unfold listingExtractEntry
    rw [hlink]
    exact if_neg hhref
  refine ⟨heq, ?_⟩
  rw [heq]
  show dictGet "title" (applyMetaSelectors cfg.metadata_selectors element anc
    (applySummary cfg element anc
      (applyTitleSelector cfg element anc
        (applyLinkTitle (some le) pageMeta)))) = some (.str (getTextOf le " " true))
  rw [applyMetaSelectors_get "title" cfg.metadata_selectors element anc hms,
    applySummary_get_title,
    applyTitleSelector_get cfg element anc _ (.str (getTextOf le " " true))
      (applyLinkTitle_get le pageMeta hlt hnot)]

/-- Configuration for the C9 counterexample and witness: entries are
`div.item`, the title selector is `h2`. -/
def c9cfg : ListingCfg := { item_selector := "div.item", title_selector := some "h2" }

/-- Markup whose entry has both a non-empty link text and a non-empty
title-selector text. -/
def c9html : String :=
  "<div class=\"item\"><a href=\"/x\">LinkText</a><h2>SelTitle</h2></div>"

/-- C9 counterexample: the entry has a non-empty link text (LinkText) and
a non-empty title-selector text (SelTitle); the claim says the
title-selector text wins, but the recorded title is the link text. -/
theorem title_precedence_counterexample_C9 :
    (listingExtract c9cfg c9html []).map (fun r => dictGet "title" r.metadata) =
      [some (.str "LinkText")] ∧
      ((selectOneCtx (parseHtml c9html) [] "div.item h2").map
        (fun n => getTextOf n " " true)) = some "SelTitle" ∧
      MetaV.str "LinkText" ≠ MetaV.str "SelTitle" :=
  ⟨by decide, by decide, by decide⟩

/-- The entry element of the C9 witness together with its context. -/
def c9elem : HNode × List Frame :=
  ((selectPairs (parseHtml c9html) [] "div.item").headD (.text "", []))

/-- The link element of the C9 witness. -/
def c9link : HNode := (selectOneCtx c9elem.1 c9elem.2 "a").getD (.text "")

/-- Witness for the amended C9 theorem on the counterexample entry. -/
theorem link_text_wins_C9_witness :
    c9cfg.link_selector = some "a" ∧
      (selectOneCtx c9elem.1 c9elem.2 "a").map nodeToHtml =
        some "<a href=\"/x\">LinkText</a>" ∧
      pyStrip ((dictGet c9cfg.url_attribute (attrsOf c9link)).getD "") ≠ "" ∧
      getTextOf c9link " " true = "LinkText" ∧
      dictGet "title" ((listingExtractEntry c9cfg [] c9elem.1 c9elem.2).map
        RawListingItem.metadata |>.getD []) = some (.str (getTextOf c9link " " true)) :=
  ⟨by decide, by rfl, by decide, by decide,
    (link_text_wins_C9 c9cfg [] c9elem.1 c9elem.2 "a" c9link (by decide) (by rfl)
      (by decide) (by decide) (by decide) (by decide)).2⟩

/-- One `HTMLNode` object of the mutable tree: tag, attribute mapping,
non-owning parent back-reference and ordered children (node references or
text runs).  Objects live in an explicit heap (a list indexed by object
identity) so that mutation behaves exactly as in CPython, including
parent references going stale after `unwrap`. -/
structure DNode where
  tag : String
  attrs : List (String × String)
  parent : Option Nat
  children : List (Sum Nat String)
deriving DecidableEq

/-- Heap lookup. -/
def getN (heap : List DNode) (i : Nat) : DNode :=
  heap.getD i ⟨"", [], Option.none, []⟩

/-- Heap update. -/
def setN (heap : List DNode) (i : Nat) (d : DNode) : List DNode := heap.set i d

/-- One step of the heap builder (`_TreeBuilder` handlers over objects):
a start tag allocates a node, appends it to the stack top's children with
its parent set, and pushes it; an end tag truncates the stack down to the
first matching open element (top first, root excluded); non-empty data is
appended to the stack top. -/
def hBuildStep (st : List DNode × List Nat) (tok : Tok) : List DNode × List Nat :=
  let heap := st.1
  let stack := st.2
  match tok with
  | .startTag t a sc =>
    let nid := heap.length
    let top := stack.headD 0
    let heap2 := heap ++ [⟨t, a, some top, []⟩]
    let heap3 := setN heap2 top
      { getN heap2 top with children := (getN heap2 top).children ++ [.inl nid] }
    if sc then (heap3, stack) else (heap3, nid :: stack)
  | .endTag t =>
    match stack.dropLast.findIdx? (fun i => (getN heap i).tag = t) with
    | some idx => (heap, stack.drop (idx + 1))
    | Option.none => (heap, stack)
  | .dataTok s =>
    if s = "" then (heap, stack)
    else
      let top := stack.headD 0
      (setN heap top
        { getN heap top with children := (getN heap top).children ++ [.inr s] }, stack)

/-- `HTMLDocument.from_html` on the object heap: node 0 is the root
sentinel. -/
def parseHeap (html : String) : List DNode :=
  ((tokenize (html.data.length + 1) html.data Option.none).foldl hBuildStep
    ([⟨"__root__", [], Option.none, []⟩], [0])).1

/-- Pre-order object traversal (`iter_descendants`): yield the node
itself unless it is the root sentinel, then recurse into node children.
The fuel bounds the recursion depth (instantiated above the heap size). -/
def findAllIds (heap : List DNode) (fuel : Nat) (includeSelf : Bool) (i : Nat) : List Nat :=
  match fuel with
  | 0 => []
  | fuel2 + 1 =>
    (if includeSelf && (getN heap i).tag ≠ "__root__" then [i] else []) ++
      ((getN heap i).children.filterMap (fun c =>
        match c with
        | .inl cid => some cid
        | .inr _ => Option.none)).flatMap (fun cid => findAllIds heap fuel2 true cid)

/-- `find_all` restricted to a tag set (`soup(["script", "style"])`). -/
def findAllTagIds (heap : List DNode) (tags : List String) (rootId : Nat) : List Nat :=
  (findAllIds heap (heap.length + 1) false rootId).filter
    (fun i => tags.contains (pyLower (getN heap i).tag))

/-- Index of a node object in a children list (`list.index(self)`, which
compares by identity first; the inputs exercised have no value-equal
sibling nodes). -/
def childIdxOf (cs : List (Sum Nat String)) (i : Nat) : Option Nat :=
  cs.findIdx? (fun c =>
    match c with
    | .inl j => j = i
    | .inr _ => false)

/-- Embedding of `HTMLNode.unwrap`: splice the node's children into its
parent's children at the node's position.  Crucially, exactly as in the
source, neither the spliced children's parent references nor the node's
own fields are updated — a later operation on a spliced child still sees
the unwrapped node as its parent. -/
def unwrapNode (heap : List DNode) (i : Nat) : List DNode :=
  let d := getN heap i
  match d.parent with
  | Option.none => heap
  | some p =>
    let pd := getN heap p
    match childIdxOf pd.children i with
    | Option.none => heap
    | some idx =>
      setN heap p
        { pd with children := pd.children.take idx ++ d.children ++ pd.children.drop (idx + 1) }

/-- Embedding of `HTMLNode.decompose`: remove the node from its parent's
children (by identity); again the parent reference may be stale. -/
def decomposeNode (heap : List DNode) (i : Nat) : List DNode :=
  match (getN heap i).parent with
  | Option.none => heap
  | some p =>
    let pd := getN heap p
    setN heap p
      { pd with children := pd.children.filter (fun c =>
          match c with
          | .inl j => decide (j ≠ i)
          | .inr _ => true) }

/-- Remove one attribute key (`del tag[attribute]`). -/
def dictRemove (k : String) (m : List (String × String)) : List (String × String) :=
  m.filter (fun kv => decide (kv.1 ≠ k))

/-- One pass of the sanitizer loop body over a snapshot node: unwrap a
disallowed element (and nothing else), else drop a `javascript:` href on
an anchor and every attribute other than `href`/`title`. -/
def sanitizeHeapStep (allowed : List String) (heap : List DNode) (i : Nat) : List DNode :=
  let d := getN heap i
  if !(allowed.contains d.tag) then unwrapNode heap i
  else
    let heap2 :=
      if d.tag = "a" then
        match dictGet "href" d.attrs with
        | some href =>
          if href ≠ "" && "javascript:".data.isPrefixOf (pyLower href).data then
            setN heap i { d with attrs := dictRemove "href" d.attrs }
          else heap
        | Option.none => heap
      else heap
    let d2 := getN heap2 i
    setN heap2 i { d2 with attrs := d2.attrs.filter (fun kv => kv.1 = "href" || kv.1 = "title") }

/-- Render a node object back to markup. -/
def renderHeapNode (heap : List DNode) (fuel : Nat) (i : Nat) : String :=
  match fuel with
  | 0 => ""
  | fuel2 + 1 =>
    "<" ++ (getN heap i).tag ++ attrsToHtml (getN heap i).attrs ++ ">" ++
      String.join ((getN heap i).children.map (fun c =>
        match c with
        | .inr s => s
        | .inl cid => renderHeapNode heap fuel2 cid)) ++
      "</" ++ (getN heap i).tag ++ ">"

/-- Render the whole document (`str(soup)`): root children only. -/
def renderHeapDoc (heap : List DNode) : String :=
  String.join ((getN heap 0).children.map (fun c =>
    match c with
    | .inr s => s
    | .inl cid => renderHeapNode heap (heap.length + 1) cid))

/-- The default allowed tag tuple of `SoupTextCleaner`. -/
def defaultAllowedTags : List String :=
  ["p", "br", "strong", "em", "ul", "ol", "li", "a", "blockquote"]

/-- Embedding of `SoupTextCleaner.sanitize_html`: parse, iterate over a
pre-materialized snapshot of all elements unwrapping the disallowed ones
and pruning attributes of the others, decompose residual `script`/`style`
elements, render and trim. -/
def sanitizeHtml (allowed : List String) (html : String) : String :=
  let heap0 := parseHeap html
  let ids := findAllIds heap0 (heap0.length + 1) false 0
  let heap1 := ids.foldl (sanitizeHeapStep allowed) heap0
  let heap2 := (findAllTagIds heap1 ["script", "style"] 0).foldl decomposeNode heap1
  pyStrip (renderHeapDoc heap2)

/-- C7 failing input: with the default allowed tags (script and style not
among them), `sanitize_html` lets a nested script element survive with
its full content, and a top-level script is unwrapped so its text content
stays in the output.  The unwrap pass consumes script elements before the
decompose pass can see them, and `unwrap` leaves the spliced children's
parent references stale, so a script nested in an unwrapped element never
leaves the live tree.  The repository's own green-path sanitize test
(allowed p and a) is reproduced unchanged by this embedding. -/
theorem sanitize_script_survives_C7 :
    defaultAllowedTags.contains "script" = false ∧
      defaultAllowedTags.contains "style" = false ∧
      sanitizeHtml defaultAllowedTags "<div><script>alert(1)</script></div>" =
        "<script>alert(1)</script>" ∧
      sanitizeHtml defaultAllowedTags "<script>alert(1)</script>" = "alert(1)" ∧
      sanitizeHtml ["p", "a"]
          "<div><p onclick=\"bad()\">Olá <span>mundo</span> <a href=\"javascript:alert(1)\">link</a></p></div>" =
        "<p>Olá mundo <a>link</a></p>" :=
  ⟨by decide, by decide, by decide, by decide, by decide⟩
